import Mathlib

/-!
Shallow embedding of the echo-intellect retrieval pipeline
(`src/app/components/...`, `src/app/chains/...`, `src/app/services/...`)
and proofs about the claims of its specification.

Modelling conventions:
* Python `float` scores and weights are modelled as `ℚ` (the claims are about
  the exact arithmetic expressions the code computes).
* Python `dict` (insertion ordered) is modelled as an association list in
  insertion order; `defaultdict` access creates the default entry on first
  touch, exactly as in the source.
* `list.sort(key=..., reverse=...)` is modelled as a stable sort
  (`sortBy` below) with the corresponding comparator.
* Metadata dictionaries are modelled by a structure holding the keys the
  specification talks about (`vector_count`, `all_scores`); bookkeeping keys
  that no claim mentions are not modelled.
-/

namespace Echo

/-- Metadata bag of a retrieval record (`RetrievalResult.metadata` in
`src/app/models/data_models.py`), restricted to the keys the claims mention. -/
structure Metadata where
  vector_count : Option Nat := none
  all_scores : Option (List ℚ) := none
deriving DecidableEq

instance : Inhabited Metadata := ⟨{}⟩

/-- `dict.update`: keys present in `new` override those of `old`. -/
def Metadata.updateWith (old new : Metadata) : Metadata where
  vector_count := match new.vector_count with
    | some v => some v
    | none => old.vector_count
  all_scores := match new.all_scores with
    | some v => some v
    | none => old.all_scores

/-- `RetrievalResult` from `src/app/models/data_models.py`. -/
structure RetrievalResult where
  data_id : String
  collection_id : String
  content : String
  score : ℚ
  source : String
  metadata : Metadata := {}
  tokens : Nat := 0
deriving DecidableEq

instance : Inhabited RetrievalResult :=
  ⟨{ data_id := "", collection_id := "", content := "", score := 0, source := "" }⟩

/-- `RerankResult` from `src/app/models/data_models.py` (metadata omitted:
no claim constrains it on this type). -/
structure RerankResult where
  data_id : String
  collection_id : String
  content : String
  original_score : ℚ
  rerank_score : ℚ
  final_score : ℚ
  tokens : Nat := 0
deriving DecidableEq

/-! ### Stable sort, modelling Python `list.sort` -/

/-- Insert `x` before the first element `y` with `f x y = false`;
`f x y = true` means "`x` may come before `y`". -/
def insBy (f : α → α → Bool) (x : α) : List α → List α
  | [] => [x]
  | y :: ys => if f x y then x :: y :: ys else y :: insBy f x ys

/-- Stable insertion sort: `sortBy (fun a b => key a ≤ key b)` models
Python's stable ascending `sort(key=...)`, and
`sortBy (fun a b => key b ≤ key a)` models `sort(key=..., reverse=True)`. -/
def sortBy (f : α → α → Bool) : List α → List α
  | [] => []
  | x :: xs => insBy f x (sortBy f xs)

theorem insBy_perm (f : α → α → Bool) (x : α) (l : List α) :
    List.Perm (insBy f x l) (x :: l) := by
  induction l with
  | nil => simp [insBy]
  | cons y ys ih =>
    simp only [insBy]
    by_cases h : f x y
    · simp [h]
    · simp only [h, if_neg]
      exact (List.Perm.cons y ih).trans (List.Perm.swap x y ys)

theorem sortBy_perm (f : α → α → Bool) (l : List α) :
    List.Perm (sortBy f l) l := by
  induction l with
  | nil => simp [sortBy]
  | cons x xs ih =>
    exact (insBy_perm f x (sortBy f xs)).trans (List.Perm.cons x ih)

theorem mem_sortBy {f : α → α → Bool} {x : α} {l : List α} :
    x ∈ sortBy f l ↔ x ∈ l :=
  (sortBy_perm f l).mem_iff

theorem insBy_pairwise {f : α → α → Bool}
    (htot : ∀ a b, f a b = true ∨ f b a = true)
    (htrans : ∀ a b c, f a b = true → f b c = true → f a c = true)
    (x : α) (l : List α) (hl : l.Pairwise (fun a b => f a b = true)) :
    (insBy f x l).Pairwise (fun a b => f a b = true) := by
  induction l with
  | nil => simp [insBy]
  | cons y ys ih =>
    rcases List.pairwise_cons.mp hl with ⟨hy, hys⟩
    simp only [insBy]
    by_cases h : f x y
    · simp only [h, if_pos]
      refine List.pairwise_cons.mpr ⟨?_, hl⟩
      intro z hz
      rcases List.mem_cons.mp hz with rfl | hz'
      · exact h
      · exact htrans x y z h (hy z hz')
    · simp only [h, if_neg]
      refine List.pairwise_cons.mpr ⟨?_, ih hys⟩
      intro z hz
      have hz' : z = x ∨ z ∈ ys := by
        have := (insBy_perm f x ys).mem_iff.mp hz
        simpa using this
      rcases hz' with hzx | hz'
      · rcases htot x y with h' | h'
        · exact absurd h' h
        · rw [hzx]; exact h'
      · exact hy z hz'

theorem sortBy_pairwise {f : α → α → Bool}
    (htot : ∀ a b, f a b = true ∨ f b a = true)
    (htrans : ∀ a b c, f a b = true → f b c = true → f a c = true)
    (l : List α) :
    (sortBy f l).Pairwise (fun a b => f a b = true) := by
  induction l with
  | nil => simp [sortBy]
  | cons x xs ih => exact insBy_pairwise htot htrans x (sortBy f xs) ih

/-- A stable sort leaves an already-sorted list unchanged. -/
theorem sortBy_eq_self {f : α → α → Bool} {l : List α}
    (hl : l.Pairwise (fun a b => f a b = true)) :
    sortBy f l = l := by
  induction l with
  | nil => rfl
  | cons x xs ih =>
    rcases List.pairwise_cons.mp hl with ⟨hx, hxs⟩
    simp only [sortBy, ih hxs]
    cases xs with
    | nil => rfl
    | cons y ys => simp [insBy, hx y (by simp)]

/-- `merged_results.sort(key=lambda x: x.score, reverse=True)`. -/
def sortDescByScore (l : List RetrievalResult) : List RetrievalResult :=
  sortBy (fun a b => decide (b.score ≤ a.score)) l

theorem sortDescByScore_perm (l : List RetrievalResult) :
    List.Perm (sortDescByScore l) l := sortBy_perm _ l

theorem sortDescByScore_sorted (l : List RetrievalResult) :
    (sortDescByScore l).Pairwise (fun a b => b.score ≤ a.score) := by
  have h := sortBy_pairwise (f := fun a b : RetrievalResult => decide (b.score ≤ a.score))
    (fun a b => by
      rcases le_total b.score a.score with h | h
      · left; simpa using h
      · right; simpa using h)
    (fun a b c hab hbc => by
      simp only [decide_eq_true_eq] at *
      exact le_trans hbc hab) l
  exact h.imp (fun h => by simpa using h)

/-! ### `RRFMerger._merge_multiple_vectors` (src/app/components/mergers/rrf_merger.py, lines 22-76) -/

/-- One step of `data_groups[data_id].append(result)` on an insertion-ordered
`defaultdict(list)`. -/
def insertGroup (id : String) (r : RetrievalResult) :
    List (String × List RetrievalResult) → List (String × List RetrievalResult)
  | [] => [(id, [r])]
  | (k, g) :: rest =>
    if k = id then (k, g ++ [r]) :: rest else (k, g) :: insertGroup id r rest

/-- The grouping loop of `_merge_multiple_vectors`: records whose `data_id`
is falsy (empty string) are skipped; the rest are appended to their group. -/
def groupGo (acc : List (String × List RetrievalResult)) :
    List RetrievalResult → List (String × List RetrievalResult)
  | [] => acc
  | r :: rs =>
    groupGo (if r.data_id = "" then acc else insertGroup r.data_id r acc) rs

def groupByDataId (results : List RetrievalResult) :
    List (String × List RetrievalResult) :=
  groupGo [] results

/-- Python `max(group_results, key=lambda x: x.score)`: keeps the current
element unless a strictly larger one appears, hence returns the first
maximum. -/
def maxByScore (r : RetrievalResult) : List RetrievalResult → RetrievalResult
  | [] => r
  | x :: xs => if r.score < x.score then maxByScore x xs else maxByScore r xs

/-- Merging one `data_id` group: a single vector is used directly; several
vectors collapse to the best, whose metadata gains `vector_count` and
`all_scores`. -/
def mergeGroup : List RetrievalResult → List RetrievalResult
  | [] => []
  | [r] => [r]
  | r :: rest =>
    let best := maxByScore r rest
    [{ data_id := best.data_id
       collection_id := best.collection_id
       content := best.content
       score := best.score
       source := best.source
       metadata := { best.metadata with
                     vector_count := some (r :: rest).length
                     all_scores := some ((r :: rest).map RetrievalResult.score) }
       tokens := best.tokens }]

/-- `RRFMerger._merge_multiple_vectors`. -/
def mergeMultipleVectors (results : List RetrievalResult) : List RetrievalResult :=
  ((groupByDataId results).map (fun p => mergeGroup p.2)).flatten


/-! ### Characterization of the grouping loop -/

/-- First-occurrence grouping, the specification-side characterization that
`groupByDataId` is proved to satisfy. -/
def buildGroups : List RetrievalResult → List (String × List RetrievalResult)
  | [] => []
  | r :: rs =>
    (r.data_id, r :: rs.filter (fun x => x.data_id == r.data_id)) ::
      buildGroups (rs.filter (fun x => !(x.data_id == r.data_id)))
termination_by l => l.length
decreasing_by
  simp only [List.length_cons]
  exact Nat.lt_succ_of_le (List.length_filter_le _ _)

/-- Keep the first occurrence of every element, in order. -/
def dedupFirst : List String → List String
  | [] => []
  | x :: xs => x :: dedupFirst (xs.filter (fun y => !(y == x)))
termination_by l => l.length
decreasing_by
  simp only [List.length_cons]
  exact Nat.lt_succ_of_le (List.length_filter_le _ _)

theorem dedupFirst_mem {a : String} : ∀ {l : List String}, a ∈ dedupFirst l ↔ a ∈ l
  | [] => by simp [dedupFirst]
  | x :: xs => by
    simp only [dedupFirst, List.mem_cons]
    by_cases hax : a = x
    · simp [hax]
    · simp only [hax, false_or]
      rw [dedupFirst_mem (l := xs.filter (fun y => !(y == x)))]
      simp [List.mem_filter, hax]
termination_by l => l.length
decreasing_by
  simp only [List.length_cons]
  exact Nat.lt_succ_of_le (List.length_filter_le _ _)

theorem dedupFirst_nodup : ∀ (l : List String), (dedupFirst l).Nodup
  | [] => by simp [dedupFirst]
  | x :: xs => by
    simp only [dedupFirst, List.nodup_cons]
    constructor
    · intro hx
      have := dedupFirst_mem.mp hx
      simp [List.mem_filter] at this
    · exact dedupFirst_nodup (xs.filter (fun y => !(y == x)))
termination_by l => l.length
decreasing_by
  simp only [List.length_cons]
  exact Nat.lt_succ_of_le (List.length_filter_le _ _)

theorem map_dataId_filter (p : String → Bool) (l : List RetrievalResult) :
    (l.filter (fun x => p x.data_id)).map RetrievalResult.data_id
      = (l.map RetrievalResult.data_id).filter p := by
  induction l with
  | nil => rfl
  | cons r rs ih =>
    by_cases h : p r.data_id
    · simp [List.filter_cons, h, ih]
    · simp [List.filter_cons, h, ih]

theorem buildGroups_keys : ∀ (l : List RetrievalResult),
    (buildGroups l).map Prod.fst = dedupFirst (l.map RetrievalResult.data_id)
  | [] => by simp [buildGroups, dedupFirst]
  | r :: rs => by
    simp only [buildGroups, dedupFirst, List.map_cons, List.map]
    rw [buildGroups_keys (rs.filter (fun x => !(x.data_id == r.data_id)))]
    rw [map_dataId_filter (fun y => !(y == r.data_id)) rs]
termination_by l => l.length
decreasing_by
  simp only [List.length_cons]
  exact Nat.lt_succ_of_le (List.length_filter_le _ _)

theorem buildGroups_groups : ∀ (l : List RetrievalResult),
    ∀ p ∈ buildGroups l,
      p.2 = l.filter (fun x => x.data_id == p.1) ∧ p.2 ≠ []
  | [] => by simp [buildGroups]
  | r :: rs => by
    intro p hp
    simp only [buildGroups, List.mem_cons] at hp
    rcases hp with rfl | hp
    · constructor
      · simp [List.filter_cons]
      · simp
    · have hkey : p.1 ∈ (buildGroups (rs.filter (fun x => !(x.data_id == r.data_id)))).map Prod.fst :=
        List.mem_map.mpr ⟨p, hp, rfl⟩
      rw [buildGroups_keys] at hkey
      have hkey' := dedupFirst_mem.mp hkey
      rw [map_dataId_filter (fun y => !(y == r.data_id)) rs] at hkey'
      have hne : ¬ p.1 = r.data_id := by
        rcases List.mem_filter.mp hkey' with ⟨_, hb⟩
        simpa using hb
      have ih := buildGroups_groups (rs.filter (fun x => !(x.data_id == r.data_id))) p hp
      refine ⟨?_, ih.2⟩
      rw [ih.1, List.filter_filter]
      simp only [List.filter_cons]
      have hr : ¬ (r.data_id == p.1) = true := by
        simp only [beq_iff_eq]
        exact fun h => hne h.symm
      simp only [hr, if_neg, Bool.false_eq_true, not_false_eq_true, if_false]
      apply List.filter_congr
      intro x _
      by_cases hx : x.data_id = p.1
      · simp [hx, hne]
      · simp [hx]
termination_by l => l.length
decreasing_by
  simp only [List.length_cons]
  exact Nat.lt_succ_of_le (List.length_filter_le _ _)

theorem map_congr_self {l : List α} {f : α → α} (h : ∀ a ∈ l, f a = a) :
    l.map f = l := by
  induction l with
  | nil => rfl
  | cons x xs ih =>
    simp only [List.map_cons, h x (List.mem_cons_self x xs),
      ih (fun a ha => h a (List.mem_cons_of_mem x ha))]

theorem insertGroup_fresh (id : String) (r : RetrievalResult) :
    ∀ (acc : List (String × List RetrievalResult)),
      id ∉ acc.map Prod.fst →
      insertGroup id r acc = acc ++ [(id, [r])]
  | [], _ => rfl
  | (k, g) :: rest, h => by
    simp only [List.map_cons, List.mem_cons] at h
    push_neg at h
    simp only [insertGroup]
    rw [if_neg (fun hk => h.1 hk.symm), insertGroup_fresh id r rest h.2]
    simp

theorem insertGroup_mem (id : String) (r : RetrievalResult) :
    ∀ (acc : List (String × List RetrievalResult)),
      (acc.map Prod.fst).Nodup → id ∈ acc.map Prod.fst →
      insertGroup id r acc
        = acc.map (fun p => if p.1 = id then (p.1, p.2 ++ [r]) else p)
  | [], _, h => by simp at h
  | (k, g) :: rest, hnd, h => by
    simp only [List.map_cons, List.nodup_cons] at hnd
    by_cases hk : k = id
    · subst hk
      simp only [insertGroup, List.map_cons, if_true]
      congr 1
      symm
      apply map_congr_self
      intro p hp
      rw [if_neg]
      intro hpk
      exact hnd.1 (hpk ▸ List.mem_map.mpr ⟨p, hp, rfl⟩)
    · have hid : id ∈ rest.map Prod.fst := by
        rcases List.mem_cons.mp h with h' | h'
        · exact absurd h'.symm hk
        · exact h'
      simp only [insertGroup, List.map_cons]
      rw [if_neg hk, if_neg hk, insertGroup_mem id r rest hnd.2 hid]

theorem keys_insertGroup (id : String) (r : RetrievalResult) :
    ∀ (acc : List (String × List RetrievalResult)),
      (insertGroup id r acc).map Prod.fst =
        if id ∈ acc.map Prod.fst then acc.map Prod.fst
        else acc.map Prod.fst ++ [id]
  | [] => by simp [insertGroup]
  | (k, g) :: rest => by
    simp only [insertGroup, List.map_cons]
    by_cases hk : k = id
    · subst hk
      simp
    · rw [if_neg hk]
      simp only [List.map_cons, keys_insertGroup id r rest]
      by_cases hid : id ∈ rest.map Prod.fst
      · rw [if_pos hid, if_pos (List.mem_cons_of_mem k hid)]
      · rw [if_neg hid, if_neg (by
          intro hc
          rcases List.mem_cons.mp hc with h' | h'
          · exact hk h'.symm
          · exact hid h')]
        simp

theorem keys_insertGroup_nodup (id : String) (r : RetrievalResult)
    (acc : List (String × List RetrievalResult))
    (hnd : (acc.map Prod.fst).Nodup) :
    ((insertGroup id r acc).map Prod.fst).Nodup := by
  rw [keys_insertGroup]
  by_cases hid : id ∈ acc.map Prod.fst
  · rwa [if_pos hid]
  · rw [if_neg hid]
    simp [List.nodup_append, hnd, hid]

theorem map_congr_fun {l : List α} {f g : α → β} (h : ∀ a ∈ l, f a = g a) :
    l.map f = l.map g := by
  induction l with
  | nil => rfl
  | cons x xs ih =>
    simp only [List.map_cons, h x (List.mem_cons_self x xs),
      ih (fun a ha => h a (List.mem_cons_of_mem x ha))]

/-- The grouping loop, started on any well-formed accumulator, appends new
records to their existing group and builds fresh groups in first-occurrence
order. -/
theorem groupGo_eq : ∀ (l : List RetrievalResult)
    (acc : List (String × List RetrievalResult)),
    (∀ x ∈ l, x.data_id ≠ "") → (acc.map Prod.fst).Nodup →
    groupGo acc l =
      acc.map (fun p => (p.1, p.2 ++ l.filter (fun x => x.data_id == p.1)))
        ++ buildGroups (l.filter (fun x => !decide (x.data_id ∈ acc.map Prod.fst)))
  | [], acc => by
    intro _ _
    simp [groupGo, buildGroups]
  | r :: rs, acc => by
    intro hval hnd
    have hr : r.data_id ≠ "" := hval r (List.mem_cons_self r rs)
    have hval' : ∀ x ∈ rs, x.data_id ≠ "" :=
      fun x hx => hval x (List.mem_cons_of_mem r hx)
    simp only [groupGo, if_neg hr]
    rw [groupGo_eq rs (insertGroup r.data_id r acc) hval'
      (keys_insertGroup_nodup r.data_id r acc hnd)]
    by_cases hmem : r.data_id ∈ acc.map Prod.fst
    · have hkeys : (insertGroup r.data_id r acc).map Prod.fst = acc.map Prod.fst := by
        rw [keys_insertGroup, if_pos hmem]
      rw [hkeys, insertGroup_mem r.data_id r acc hnd hmem, List.map_map]
      congr 1
      · apply map_congr_fun
        intro p _
        by_cases hp1 : p.1 = r.data_id
        · have hbeq : (r.data_id == p.1) = true := by simp [hp1]
          simp [Function.comp, if_pos hp1, List.filter_cons, hbeq]
        · have hbeq : ¬ (r.data_id == p.1) = true := by
            simp only [beq_iff_eq]
            exact fun h => hp1 h.symm
          simp [Function.comp, if_neg hp1, List.filter_cons, hbeq]
      · congr 1
        simp [List.filter_cons, hmem]
    · rw [insertGroup_fresh r.data_id r acc hmem]
      have hkeys : (insertGroup r.data_id r acc).map Prod.fst
          = acc.map Prod.fst ++ [r.data_id] := by
        rw [keys_insertGroup, if_neg hmem]
      rw [insertGroup_fresh r.data_id r acc hmem] at hkeys
      rw [hkeys, List.map_append]
      have hfilterR : (r :: rs).filter
          (fun x => !decide (x.data_id ∈ acc.map Prod.fst))
          = r :: rs.filter (fun x => !decide (x.data_id ∈ acc.map Prod.fst)) := by
        simp [List.filter_cons, hmem]
      rw [hfilterR]
      simp only [buildGroups]
      have h1 : acc.map (fun p => (p.1, p.2 ++ rs.filter (fun x => x.data_id == p.1)))
          = acc.map (fun p => (p.1, p.2 ++ (r :: rs).filter (fun x => x.data_id == p.1))) := by
        apply map_congr_fun
        intro p hp
        have hp1 : p.1 ≠ r.data_id := by
          intro hc
          exact hmem (hc ▸ List.mem_map.mpr ⟨p, hp, rfl⟩)
        have hbeq : ¬ (r.data_id == p.1) = true := by
          simp only [beq_iff_eq]
          exact fun h => hp1 h.symm
        simp [List.filter_cons, hbeq]
      have h2 : (rs.filter (fun x => !decide (x.data_id ∈ acc.map Prod.fst))).filter
            (fun x => x.data_id == r.data_id)
          = rs.filter (fun x => x.data_id == r.data_id) := by
        rw [List.filter_filter]
        apply List.filter_congr
        intro x _
        by_cases hx : x.data_id = r.data_id
        · simp [hx, hmem]
        · simp [hx]
      have h3 : (rs.filter (fun x => !decide (x.data_id ∈ acc.map Prod.fst))).filter
            (fun x => !(x.data_id == r.data_id))
          = rs.filter (fun x => !decide (x.data_id ∈ acc.map Prod.fst ++ [r.data_id])) := by
        rw [List.filter_filter]
        apply List.filter_congr
        intro x _
        by_cases hx : x.data_id = r.data_id
        · simp [hx, List.mem_append]
        · by_cases hx2 : x.data_id ∈ acc.map Prod.fst <;>
            simp [hx, hx2, List.mem_append]
      rw [h2, h3, h1]
      simp only [List.map_cons, List.map_nil]
      rw [List.append_assoc]
      simp

/-- On inputs whose records all carry a valid (non-empty) `data_id`, the
grouping loop of `_merge_multiple_vectors` groups by first occurrence. -/
theorem groupByDataId_eq (l : List RetrievalResult)
    (hval : ∀ x ∈ l, x.data_id ≠ "") :
    groupByDataId l = buildGroups l := by
  unfold groupByDataId
  rw [groupGo_eq l [] hval (by simp)]
  simp

theorem maxByScore_mem (r : RetrievalResult) :
    ∀ (xs : List RetrievalResult), maxByScore r xs ∈ r :: xs
  | [] => by simp [maxByScore]
  | x :: xs => by
    simp only [maxByScore]
    by_cases h : r.score < x.score
    · rw [if_pos h]
      have hm := maxByScore_mem x xs
      rcases List.mem_cons.mp hm with h' | h'
      · simp [h']
      · simp [List.mem_cons_of_mem, h']
    · rw [if_neg h]
      have hm := maxByScore_mem r xs
      rcases List.mem_cons.mp hm with h' | h'
      · simp [h']
      · simp [List.mem_cons_of_mem, h']

theorem maxByScore_ge (r : RetrievalResult) :
    ∀ (xs : List RetrievalResult), ∀ y ∈ r :: xs, y.score ≤ (maxByScore r xs).score
  | [] => by
    intro y hy
    rcases List.mem_cons.mp hy with h | h
    · rw [h]; simp [maxByScore]
    · simp at h
  | x :: xs => by
    intro y hy
    simp only [maxByScore]
    by_cases h : r.score < x.score
    · rw [if_pos h]
      rcases List.mem_cons.mp hy with h' | h'
      · calc y.score = r.score := by rw [h']
          _ ≤ x.score := le_of_lt h
          _ ≤ (maxByScore x xs).score := maxByScore_ge x xs x (List.mem_cons_self x xs)
      · exact maxByScore_ge x xs y h'
    · rw [if_neg h]
      rcases List.mem_cons.mp hy with h' | h'
      · rw [h']
        exact maxByScore_ge r xs r (List.mem_cons_self r xs)
      · rcases List.mem_cons.mp h' with h2 | h2
        · calc y.score = x.score := by rw [h2]
            _ ≤ r.score := le_of_not_lt h
            _ ≤ (maxByScore r xs).score := maxByScore_ge r xs r (List.mem_cons_self r xs)
        · exact maxByScore_ge r xs y (List.mem_cons_of_mem r h2)

/-- Full characterization of merging one nonempty group. -/
theorem mergeGroup_spec (g : List RetrievalResult) (hg : g ≠ []) :
    ∃ m, mergeGroup g = [m] ∧
      (∃ y ∈ g, m.data_id = y.data_id) ∧
      (∃ y ∈ g, m.score = y.score) ∧
      (∀ y ∈ g, y.score ≤ m.score) ∧
      (2 ≤ g.length →
        m.metadata.vector_count = some g.length ∧
        m.metadata.all_scores = some (g.map RetrievalResult.score)) ∧
      (g.length = 1 → g = [m]) := by
  match g, hg with
  | [r], _ =>
    refine ⟨r, rfl, ⟨r, by simp⟩, ⟨r, by simp⟩, ?_, ?_, ?_⟩
    · intro y hy
      rcases List.mem_cons.mp hy with h | h
      · rw [h]
      · simp at h
    · intro h
      simp at h
    · intro _
      rfl
  | r :: x :: xs, _ =>
    refine ⟨_, rfl, ?_, ?_, ?_, ?_, ?_⟩
    · exact ⟨maxByScore r (x :: xs), maxByScore_mem r (x :: xs), rfl⟩
    · exact ⟨maxByScore r (x :: xs), maxByScore_mem r (x :: xs), rfl⟩
    · intro y hy
      exact maxByScore_ge r (x :: xs) y hy
    · intro _
      exact ⟨rfl, rfl⟩
    · intro h
      simp at h

theorem flatten_map_mergeGroup_keys :
    ∀ (gs : List (String × List RetrievalResult)),
      (∀ p ∈ gs, p.2 ≠ [] ∧ ∀ y ∈ p.2, y.data_id = p.1) →
      ((gs.map (fun p => mergeGroup p.2)).flatten).map RetrievalResult.data_id
        = gs.map Prod.fst
  | [], _ => rfl
  | p :: gs, h => by
    have hp := h p (List.mem_cons_self p gs)
    rcases mergeGroup_spec p.2 hp.1 with ⟨m, hm, ⟨y, hy, hid⟩, _⟩
    simp only [List.map_cons, List.flatten_cons, hm, List.map_append]
    rw [flatten_map_mergeGroup_keys gs (fun q hq => h q (List.mem_cons_of_mem p hq))]
    simp [hid, hp.2 y hy]

/-- C2 (amended): on any input whose records carry non-empty `data_id`s,
`_merge_multiple_vectors` emits each `data_id` at most once, in order of the
earliest occurrence of the `data_id`; the surviving record scores the maximum
of its group; a group of at least two entries gets `vector_count` and the
full score list in its metadata; a `data_id` that appears exactly once passes
through unchanged (in particular without any `vector_count` entry). -/
theorem c2_merge_multiple_vectors_amended (results : List RetrievalResult)
    (hval : ∀ x ∈ results, x.data_id ≠ "") :
    ((mergeMultipleVectors results).map RetrievalResult.data_id).Nodup ∧
    (mergeMultipleVectors results).map RetrievalResult.data_id
        = dedupFirst (results.map RetrievalResult.data_id) ∧
    (∀ o ∈ mergeMultipleVectors results,
      (∃ y ∈ results.filter (fun x => x.data_id == o.data_id), o.score = y.score) ∧
      (∀ y ∈ results.filter (fun x => x.data_id == o.data_id), y.score ≤ o.score) ∧
      (2 ≤ (results.filter (fun x => x.data_id == o.data_id)).length →
        o.metadata.vector_count
            = some (results.filter (fun x => x.data_id == o.data_id)).length ∧
        o.metadata.all_scores
            = some ((results.filter (fun x => x.data_id == o.data_id)).map
                RetrievalResult.score)) ∧
      ((results.filter (fun x => x.data_id == o.data_id)).length = 1 →
        results.filter (fun x => x.data_id == o.data_id) = [o])) := by
  have hmv : mergeMultipleVectors results
      = ((buildGroups results).map (fun p => mergeGroup p.2)).flatten := by
    unfold mergeMultipleVectors
    rw [groupByDataId_eq results hval]
  have hprop : ∀ p ∈ buildGroups results, p.2 ≠ [] ∧ ∀ y ∈ p.2, y.data_id = p.1 := by
    intro p hp
    rcases buildGroups_groups results p hp with ⟨hfil, hne⟩
    refine ⟨hne, ?_⟩
    intro y hy
    rw [hfil] at hy
    rcases List.mem_filter.mp hy with ⟨_, hb⟩
    exact beq_iff_eq.mp hb
  have hids : (mergeMultipleVectors results).map RetrievalResult.data_id
      = dedupFirst (results.map RetrievalResult.data_id) := by
    rw [hmv, flatten_map_mergeGroup_keys (buildGroups results) hprop,
      buildGroups_keys]
  refine ⟨?_, hids, ?_⟩
  · rw [hids]
    exact dedupFirst_nodup _
  · intro o ho
    rw [hmv] at ho
    rcases List.mem_flatten.mp ho with ⟨sub, hsub, hosub⟩
    rcases List.mem_map.mp hsub with ⟨p, hp, rfl⟩
    rcases hprop p hp with ⟨hne, hallid⟩
    rcases buildGroups_groups results p hp with ⟨hfil, _⟩
    rcases mergeGroup_spec p.2 hne with
      ⟨m, hm, ⟨y, hy, hid⟩, hscore, hge, hmeta, hsingle⟩
    rw [hm] at hosub
    have ho' : o = m := by simpa using hosub
    subst ho'
    have hoid : o.data_id = p.1 := by
      rw [hid]
      exact hallid y hy
    have hfil' : results.filter (fun x => x.data_id == o.data_id) = p.2 := by
      rw [hoid, ← hfil]
    rw [hfil']
    exact ⟨hscore, hge, hmeta, hsingle⟩

/-- Dense multi-vector example from the specification: vectors v1, v2 both
map to data A (scores 0.90, 0.80); v3 maps to B (score 0.85). -/
def exMvA1 : RetrievalResult :=
  { data_id := "A", collection_id := "c1", content := "tA", score := 9/10, source := "v1" }

def exMvA2 : RetrievalResult :=
  { data_id := "A", collection_id := "c1", content := "tA", score := 4/5, source := "v2" }

def exMvB3 : RetrievalResult :=
  { data_id := "B", collection_id := "c1", content := "tB", score := 17/20, source := "v3" }

def exMvInput : List RetrievalResult := [exMvA1, exMvA2, exMvB3]

/-- C2 (counterexample): on the specification's own example, the record for
`B` (a `data_id` that appeared only once) does not carry `vector_count = 1`;
its metadata is left untouched (`vector_count` absent). -/
theorem c2_merge_multiple_vectors_counterexample :
    ¬ ((mergeMultipleVectors exMvInput).map
          (fun r => (r.data_id, r.score, r.metadata.vector_count))
        = [("A", 9/10, some 2), ("B", 17/20, some 1)]) := by
  norm_num +decide [mergeMultipleVectors, groupByDataId, groupGo, insertGroup,
    mergeGroup, maxByScore, exMvInput, exMvA1, exMvA2, exMvB3]

/-- Witness: the amended C2 theorem applied to the concrete example. -/
theorem c2_merge_multiple_vectors_amended_witness :
    (∀ x ∈ exMvInput, x.data_id ≠ "") ∧
    (mergeMultipleVectors exMvInput).map RetrievalResult.data_id
        = dedupFirst (exMvInput.map RetrievalResult.data_id) :=
  ⟨by simp [exMvInput, exMvA1, exMvA2, exMvB3],
    (c2_merge_multiple_vectors_amended exMvInput
      (by simp [exMvInput, exMvA1, exMvA2, exMvB3])).2.1⟩

/-! ### `RRFMerger.merge_multiple_results` (rrf_merger.py, lines 175-238) -/

/-- Per-`data_id` accumulator entry of `merge_multiple_results`:
`defaultdict(lambda: {"ranks": {}, "metadata": {}, "total_weight": 0.0})`,
together with the keys the loop body sets on every touch. -/
structure MRInfo where
  ranks : List (String × Nat) := []
  content : String := ""
  collection_id : String := ""
  tokens : Nat := 0
  total_weight : ℚ := 0
  metadata : Metadata := {}
deriving DecidableEq

instance : Inhabited MRInfo := ⟨{}⟩

/-- Ordered-dict assignment `data["ranks"][source] = rank`. -/
def setRank (src : String) (rk : Nat) : List (String × Nat) → List (String × Nat)
  | [] => [(src, rk)]
  | (s', r') :: rest =>
    if s' = src then (s', rk) :: rest else (s', r') :: setRank src rk rest

/-- Ordered-dict update of `data_scores` at key `k` (`defaultdict` semantics:
the default entry is created on first touch). -/
def updInfo (k : String) (f : MRInfo → MRInfo) :
    List (String × MRInfo) → List (String × MRInfo)
  | [] => [(k, f {})]
  | (k', v) :: rest =>
    if k' = k then (k', f v) :: rest else (k', v) :: updInfo k f rest

/-- One iteration of the inner loop of `merge_multiple_results`. -/
def touchMR (w : ℚ) (src : String) (rk : Nat) (r : RetrievalResult)
    (ds : List (String × MRInfo)) : List (String × MRInfo) :=
  updInfo r.data_id (fun info =>
    { info with
      ranks := setRank src rk info.ranks
      content := r.content
      collection_id := r.collection_id
      metadata := info.metadata.updateWith r.metadata
      tokens := r.tokens
      total_weight := info.total_weight + w }) ds

/-- `for rank, result in enumerate(results, 1): ...` -/
def processList (w : ℚ) (src : String) :
    Nat → List RetrievalResult → List (String × MRInfo) → List (String × MRInfo)
  | _, [], ds => ds
  | rk, r :: rs, ds => processList w src (rk + 1) rs (touchMR w src rk r ds)

/-- First phase of `merge_multiple_results`: build `data_scores` by
processing the result lists in order. -/
def buildDataScores (lists : List (List RetrievalResult × ℚ × String)) :
    List (String × MRInfo) :=
  lists.foldl (fun ds t => processList t.2.1 t.2.2 1 t.1 ds) []

/-- `next(w for r, w, s in result_lists if s == source)`: the weight of the
first input list carrying the given source name. -/
def weightOf (lists : List (List RetrievalResult × ℚ × String)) (src : String) : ℚ :=
  match lists.find? (fun t => t.2.2 == src) with
  | some t => t.2.1
  | none => 0

/-- `rrf_score = Σ source_weight / (self.k + rank)` over the rank dict. -/
def rrfScoreOf (lists : List (List RetrievalResult × ℚ × String)) (k : Nat)
    (info : MRInfo) : ℚ :=
  info.ranks.foldl (fun acc p => acc + weightOf lists p.1 / ((k : ℚ) + p.2)) 0

/-- `RRFMerger.merge_multiple_results`, with RRF constant `k` (`self.k`). -/
def mergeMultipleResults (k : Nat)
    (lists : List (List RetrievalResult × ℚ × String)) : List RetrievalResult :=
  sortDescByScore ((buildDataScores lists).map (fun p =>
    { data_id := p.1
      collection_id := p.2.collection_id
      content := p.2.content
      score := rrfScoreOf lists k p.2
      source := "multi_rrf_merged"
      metadata := p.2.metadata
      tokens := p.2.tokens }))

/-- 1-based rank of the first record with the given `data_id`, counting
from `n`. -/
def rankFrom (n : Nat) : List RetrievalResult → String → Option Nat
  | [], _ => none
  | r :: rs, id => if r.data_id = id then some n else rankFrom (n + 1) rs id

/-- The claimed RRF score: the sum, over the input lists in which `id`
appears, of `w_i / (k + rank_i)` with 1-based ranks. -/
def specScore (lists : List (List RetrievalResult × ℚ × String)) (k : Nat)
    (id : String) : ℚ :=
  (lists.map (fun t =>
    match rankFrom 1 t.1 id with
    | some rk => t.2.1 / ((k : ℚ) + rk)
    | none => 0)).sum

/-- The (source, rank) pairs `id` receives, in list order. -/
def ranksSpec (lists : List (List RetrievalResult × ℚ × String)) (id : String) :
    List (String × Nat) :=
  lists.filterMap (fun t =>
    match rankFrom 1 t.1 id with
    | some rk => some (t.2.2, rk)
    | none => none)

/-- Lookup in the `data_scores` association list. -/
def lookupInfo (id : String) (ds : List (String × MRInfo)) : Option MRInfo :=
  match ds.find? (fun p => p.1 == id) with
  | some p => some p.2
  | none => none

/-- The rank dict currently held for `id` (empty if `id` untouched). -/
def ranksOf (id : String) (ds : List (String × MRInfo)) : List (String × Nat) :=
  match lookupInfo id ds with
  | some info => info.ranks
  | none => []

theorem setRank_fresh (src : String) (rk : Nat) :
    ∀ (l : List (String × Nat)), src ∉ l.map Prod.fst →
      setRank src rk l = l ++ [(src, rk)]
  | [], _ => rfl
  | (s', r') :: rest, h => by
    simp only [List.map_cons, List.mem_cons] at h
    push_neg at h
    simp only [setRank]
    rw [if_neg (fun hc => h.1 hc.symm), setRank_fresh src rk rest h.2]
    simp

theorem lookupInfo_nil (k : String) : lookupInfo k [] = none := rfl

theorem lookupInfo_cons_self (k : String) (v : MRInfo)
    (ds : List (String × MRInfo)) :
    lookupInfo k ((k, v) :: ds) = some v := by
  unfold lookupInfo
  rw [List.find?_cons_of_pos _ (by simp)]

theorem lookupInfo_cons_ne {k k' : String} (hne : ¬ k' = k) (v : MRInfo)
    (ds : List (String × MRInfo)) :
    lookupInfo k ((k', v) :: ds) = lookupInfo k ds := by
  unfold lookupInfo
  rw [List.find?_cons_of_neg _ (by simp [hne])]

theorem lookupInfo_updInfo_self (k : String) (f : MRInfo → MRInfo) :
    ∀ (ds : List (String × MRInfo)),
      lookupInfo k (updInfo k f ds) = some (f ((lookupInfo k ds).getD {}))
  | [] => by
    simp only [updInfo, lookupInfo_nil]
    rw [lookupInfo_cons_self]
    rfl
  | (k', v) :: rest => by
    by_cases hk : k' = k
    · subst hk
      simp only [updInfo, if_true]
      rw [lookupInfo_cons_self, lookupInfo_cons_self]
      rfl
    · simp only [updInfo, if_neg hk]
      rw [lookupInfo_cons_ne hk, lookupInfo_cons_ne hk]
      exact lookupInfo_updInfo_self k f rest

theorem lookupInfo_updInfo_other {k k' : String} (hne : k' ≠ k)
    (f : MRInfo → MRInfo) :
    ∀ (ds : List (String × MRInfo)),
      lookupInfo k' (updInfo k f ds) = lookupInfo k' ds
  | [] => by
    simp only [updInfo, lookupInfo_nil]
    rw [lookupInfo_cons_ne (fun h => hne h.symm), lookupInfo_nil]
  | (k'', v) :: rest => by
    by_cases hk : k'' = k
    · subst hk
      simp only [updInfo, if_true]
      rw [lookupInfo_cons_ne (fun h => hne h.symm),
        lookupInfo_cons_ne (fun h => hne h.symm)]
    · simp only [updInfo, if_neg hk]
      by_cases h2 : k'' = k'
      · subst h2
        rw [lookupInfo_cons_self, lookupInfo_cons_self]
      · rw [lookupInfo_cons_ne h2, lookupInfo_cons_ne h2]
        exact lookupInfo_updInfo_other hne f rest

theorem keys_updInfo (k : String) (f : MRInfo → MRInfo) :
    ∀ (ds : List (String × MRInfo)),
      (updInfo k f ds).map Prod.fst =
        if k ∈ ds.map Prod.fst then ds.map Prod.fst else ds.map Prod.fst ++ [k]
  | [] => by simp [updInfo]
  | (k', v) :: rest => by
    by_cases hk : k' = k
    · subst hk
      simp [updInfo]
    · simp only [updInfo, if_neg hk, List.map_cons, keys_updInfo k f rest]
      by_cases hid : k ∈ rest.map Prod.fst
      · rw [if_pos hid, if_pos (List.mem_cons_of_mem k' hid)]
      · rw [if_neg hid, if_neg (by
          intro hc
          rcases List.mem_cons.mp hc with h' | h'
          · exact hk h'.symm
          · exact hid h')]
        simp

theorem keys_updInfo_nodup (k : String) (f : MRInfo → MRInfo)
    (ds : List (String × MRInfo)) (hnd : (ds.map Prod.fst).Nodup) :
    ((updInfo k f ds).map Prod.fst).Nodup := by
  rw [keys_updInfo]
  by_cases hk : k ∈ ds.map Prod.fst
  · rwa [if_pos hk]
  · rw [if_neg hk]
    simp [List.nodup_append, hnd, hk]

theorem ranksOf_touch_self (w : ℚ) (src : String) (rk : Nat)
    (r : RetrievalResult) (ds : List (String × MRInfo)) :
    ranksOf r.data_id (touchMR w src rk r ds)
      = setRank src rk (ranksOf r.data_id ds) := by
  unfold touchMR ranksOf
  rw [lookupInfo_updInfo_self]
  cases h : lookupInfo r.data_id ds with
  | none => simp [h]
  | some info => simp [h]

theorem ranksOf_touch_other {id : String} (w : ℚ) (src : String) (rk : Nat)
    {r : RetrievalResult} (hne : id ≠ r.data_id) (ds : List (String × MRInfo)) :
    ranksOf id (touchMR w src rk r ds) = ranksOf id ds := by
  unfold touchMR ranksOf
  rw [lookupInfo_updInfo_other hne]

theorem rankFrom_eq_none {id : String} :
    ∀ {L : List RetrievalResult} (n : Nat),
      id ∉ L.map RetrievalResult.data_id → rankFrom n L id = none
  | [], _, _ => rfl
  | r :: rs, n, h => by
    simp only [List.map_cons, List.mem_cons] at h
    push_neg at h
    have hne : ¬ r.data_id = id := fun hc => h.1 hc.symm
    simp only [rankFrom, if_neg hne]
    exact rankFrom_eq_none (n + 1) h.2

theorem processList_keys_nodup (w : ℚ) (src : String) :
    ∀ (L : List RetrievalResult) (n : Nat) (ds : List (String × MRInfo)),
      (ds.map Prod.fst).Nodup →
      ((processList w src n L ds).map Prod.fst).Nodup
  | [], _, _, h => h
  | r :: rs, n, ds, h =>
    processList_keys_nodup w src rs (n + 1) (touchMR w src n r ds)
      (keys_updInfo_nodup _ _ ds h)

/-- Inner-loop invariant: processing one list appends at most one
`(source, rank)` pair — the record's 1-based rank — to each `data_id`'s
rank dict, provided the list's `data_id`s are distinct and the source is
fresh for the ids still to come. -/
theorem processList_ranks (w : ℚ) (src : String) :
    ∀ (L : List RetrievalResult) (n : Nat) (ds : List (String × MRInfo)),
      (L.map RetrievalResult.data_id).Nodup →
      (∀ id ∈ L.map RetrievalResult.data_id,
        src ∉ (ranksOf id ds).map Prod.fst) →
      ∀ id, ranksOf id (processList w src n L ds)
        = ranksOf id ds ++ (match rankFrom n L id with
            | some rk => [(src, rk)]
            | none => [])
  | [], n, ds, _, _ => by
    intro id
    simp [processList, rankFrom]
  | r :: rs, n, ds, hnd, hsrc => by
    intro id
    simp only [List.map_cons, List.nodup_cons] at hnd
    have hsrc' : ∀ id' ∈ rs.map RetrievalResult.data_id,
        src ∉ (ranksOf id' (touchMR w src n r ds)).map Prod.fst := by
      intro id' hid'
      have hne : id' ≠ r.data_id := fun hc => hnd.1 (hc ▸ hid')
      rw [ranksOf_touch_other w src n hne]
      exact hsrc id' (List.mem_cons_of_mem _ hid')
    simp only [processList]
    rw [processList_ranks w src rs (n + 1) (touchMR w src n r ds) hnd.2 hsrc' id]
    by_cases hid : id = r.data_id
    · subst hid
      rw [ranksOf_touch_self,
        setRank_fresh src n _ (hsrc r.data_id (by simp)),
        rankFrom_eq_none (n + 1) hnd.1]
      simp [rankFrom]
    · have hne2 : ¬ r.data_id = id := fun hc => hid hc.symm
      rw [ranksOf_touch_other w src n hid]
      simp only [rankFrom, if_neg hne2]

/-- Outer-loop invariant for `buildDataScores`, on an arbitrary starting
accumulator. -/
theorem buildGo_ranks :
    ∀ (lists : List (List RetrievalResult × ℚ × String))
      (ds : List (String × MRInfo)),
      (∀ t ∈ lists, (t.1.map RetrievalResult.data_id).Nodup) →
      (∀ t ∈ lists, ∀ id, t.2.2 ∉ (ranksOf id ds).map Prod.fst) →
      List.Pairwise (fun a b => a.2.2 ≠ b.2.2) lists →
      ∀ id,
        ranksOf id (lists.foldl (fun ds t => processList t.2.1 t.2.2 1 t.1 ds) ds)
          = ranksOf id ds ++ ranksSpec lists id
  | [], ds, _, _, _ => by
    intro id
    simp [ranksSpec]
  | t :: ts, ds, hnd, hsrc, hpw => by
    intro id
    simp only [List.foldl_cons]
    have h1 : ∀ id', ranksOf id' (processList t.2.1 t.2.2 1 t.1 ds)
        = ranksOf id' ds ++ (match rankFrom 1 t.1 id' with
            | some rk => [(t.2.2, rk)]
            | none => []) := by
      intro id'
      exact processList_ranks t.2.1 t.2.2 t.1 1 ds
        (hnd t (List.mem_cons_self t ts))
        (fun id'' _ => hsrc t (List.mem_cons_self t ts) id'') id'
    rcases List.pairwise_cons.mp hpw with ⟨hhead, htail⟩
    have hsrc' : ∀ t' ∈ ts, ∀ id',
        t'.2.2 ∉ (ranksOf id' (processList t.2.1 t.2.2 1 t.1 ds)).map Prod.fst := by
      intro t' ht' id'
      rw [h1 id']
      simp only [List.map_append, List.mem_append]
      push_neg
      refine ⟨hsrc t' (List.mem_cons_of_mem t ht') id', ?_⟩
      cases hr : rankFrom 1 t.1 id' with
      | none => simp
      | some rk =>
        simp only [List.map_cons, List.map_nil, List.mem_singleton]
        exact fun hc => (hhead t' ht') hc.symm
    rw [buildGo_ranks ts (processList t.2.1 t.2.2 1 t.1 ds)
        (fun t' ht' => hnd t' (List.mem_cons_of_mem t ht')) hsrc' htail id,
      h1 id, List.append_assoc]
    congr 1
    simp only [ranksSpec, List.filterMap_cons]
    cases hr : rankFrom 1 t.1 id <;> simp

theorem buildDataScores_keys_nodup
    (lists : List (List RetrievalResult × ℚ × String)) :
    ((buildDataScores lists).map Prod.fst).Nodup := by
  unfold buildDataScores
  suffices h : ∀ (ls : List (List RetrievalResult × ℚ × String))
      (ds : List (String × MRInfo)), (ds.map Prod.fst).Nodup →
      ((ls.foldl (fun ds t => processList t.2.1 t.2.2 1 t.1 ds) ds).map Prod.fst).Nodup by
    exact h lists [] (by simp)
  intro ls
  induction ls with
  | nil => intro ds h; exact h
  | cons t ts ih =>
    intro ds h
    exact ih _ (processList_keys_nodup t.2.1 t.2.2 t.1 1 ds h)

theorem buildDataScores_ranks
    (lists : List (List RetrievalResult × ℚ × String))
    (hids : ∀ t ∈ lists, (t.1.map RetrievalResult.data_id).Nodup)
    (hpw : List.Pairwise (fun a b => a.2.2 ≠ b.2.2) lists) :
    ∀ id, ranksOf id (buildDataScores lists) = ranksSpec lists id := by
  intro id
  have h := buildGo_ranks lists [] hids
    (by intro t _ id'; simp [ranksOf, lookupInfo_nil]) hpw id
  simpa [ranksOf, lookupInfo_nil] using h

theorem lookupInfo_of_mem :
    ∀ (ds : List (String × MRInfo)), (ds.map Prod.fst).Nodup →
      ∀ (k : String) (info : MRInfo), (k, info) ∈ ds →
        lookupInfo k ds = some info
  | [], _, _, _, h => by simp at h
  | (k', v) :: rest, hnd, k, info, h => by
    simp only [List.map_cons, List.nodup_cons] at hnd
    rcases List.mem_cons.mp h with h' | h'
    · cases h'
      exact lookupInfo_cons_self k' v rest
    · have hk : ¬ k' = k := by
        intro hc
        subst hc
        exact hnd.1 (List.mem_map.mpr ⟨(k', info), h', rfl⟩)
      rw [lookupInfo_cons_ne hk]
      exact lookupInfo_of_mem rest hnd.2 k info h'

theorem foldl_add_sum (g : String × Nat → ℚ) :
    ∀ (l : List (String × Nat)) (init : ℚ),
      l.foldl (fun acc p => acc + g p) init = init + (l.map g).sum
  | [], init => by simp
  | p :: ps, init => by
    simp only [List.foldl_cons, List.map_cons, List.sum_cons]
    rw [foldl_add_sum g ps (init + g p)]
    ring

theorem rrfScoreOf_eq_sum (lists : List (List RetrievalResult × ℚ × String))
    (k : Nat) (info : MRInfo) :
    rrfScoreOf lists k info
      = (info.ranks.map (fun p => weightOf lists p.1 / ((k : ℚ) + p.2))).sum := by
  unfold rrfScoreOf
  rw [foldl_add_sum]
  simp

theorem weightOf_self :
    ∀ (lists : List (List RetrievalResult × ℚ × String)),
      (lists.map (fun t => t.2.2)).Nodup →
      ∀ t ∈ lists, weightOf lists t.2.2 = t.2.1
  | [], _, t, ht => by simp at ht
  | t0 :: ts, hnd, t, ht => by
    simp only [List.map_cons, List.nodup_cons] at hnd
    rcases List.mem_cons.mp ht with h | h
    · subst h
      simp [weightOf, List.find?]
    · have hne : (t0.2.2 == t.2.2) = false := by
        simp only [beq_eq_false_iff_ne, ne_eq]
        intro hc
        exact hnd.1 (by rw [hc]; exact List.mem_map.mpr ⟨t, h, rfl⟩)
      have h2 := weightOf_self ts hnd.2 t h
      simp only [weightOf, List.find?, hne] at h2 ⊢
      exact h2

theorem sum_ranksSpec (k : Nat) (all : List (List RetrievalResult × ℚ × String)) :
    ∀ (lists : List (List RetrievalResult × ℚ × String)),
      (∀ t ∈ lists, weightOf all t.2.2 = t.2.1) →
      ∀ id,
        ((ranksSpec lists id).map
            (fun p => weightOf all p.1 / ((k : ℚ) + p.2))).sum
          = specScore lists k id
  | [], _, id => by simp [ranksSpec, specScore]
  | t :: ts, hw, id => by
    have hwt := hw t (List.mem_cons_self t ts)
    have hwts : ∀ t' ∈ ts, weightOf all t'.2.2 = t'.2.1 :=
      fun t' ht' => hw t' (List.mem_cons_of_mem t ht')
    have ih := sum_ranksSpec k all ts hwts id
    simp only [ranksSpec, specScore, List.filterMap_cons] at ih ⊢
    cases hr : rankFrom 1 t.1 id with
    | none => simpa [hr] using ih
    | some rk => simp [hr, ih, hwt]

/-- C1: whenever the source names of the input lists are pairwise distinct
and each list's `data_id`s are pairwise distinct, every output record of
`merge_multiple_results` scores the sum of `w_i / (k + rank_i)` over the
lists in which its `data_id` appears (1-based ranks), and the output is
sorted non-increasingly by score. -/
theorem c1_merge_multiple_results (k : Nat)
    (lists : List (List RetrievalResult × ℚ × String))
    (hsrc : (lists.map (fun t => t.2.2)).Nodup)
    (hids : ∀ t ∈ lists, (t.1.map RetrievalResult.data_id).Nodup) :
    (∀ o ∈ mergeMultipleResults k lists,
        o.score = specScore lists k o.data_id) ∧
    (mergeMultipleResults k lists).Pairwise (fun a b => b.score ≤ a.score) := by
  constructor
  · intro o ho
    unfold mergeMultipleResults at ho
    have ho' := (sortDescByScore_perm _).mem_iff.mp ho
    rcases List.mem_map.mp ho' with ⟨p, hp, rfl⟩
    have hpw : List.Pairwise (fun a b => a.2.2 ≠ b.2.2) lists :=
      List.pairwise_map.mp hsrc
    have hranks : p.2.ranks = ranksSpec lists p.1 := by
      have h1 := buildDataScores_ranks lists hids hpw p.1
      have h2 : lookupInfo p.1 (buildDataScores lists) = some p.2 :=
        lookupInfo_of_mem _ (buildDataScores_keys_nodup lists) p.1 p.2 hp
      unfold ranksOf at h1
      rw [h2] at h1
      exact h1
    show rrfScoreOf lists k p.2 = specScore lists k p.1
    rw [rrfScoreOf_eq_sum, hranks]
    exact sum_ranksSpec k lists lists (weightOf_self lists hsrc) p.1
  · exact sortDescByScore_sorted _

/-- Two small ranked lists with distinct sources for the C1 witness. -/
def exC1A : RetrievalResult :=
  { data_id := "A", collection_id := "c", content := "a", score := 1, source := "dense" }

def exC1B : RetrievalResult :=
  { data_id := "B", collection_id := "c", content := "b", score := 1, source := "bm25" }

def exC1Lists : List (List RetrievalResult × ℚ × String) :=
  [([exC1A], 3/5, "dense"), ([exC1B, exC1A], 2/5, "bm25")]

/-- Witness: C1 applied to a concrete pair of ranked lists. -/
theorem c1_merge_multiple_results_witness :
    ((exC1Lists.map (fun t => t.2.2)).Nodup ∧
      (∀ t ∈ exC1Lists, (t.1.map RetrievalResult.data_id).Nodup)) ∧
    ((∀ o ∈ mergeMultipleResults 60 exC1Lists,
        o.score = specScore exC1Lists 60 o.data_id) ∧
      (mergeMultipleResults 60 exC1Lists).Pairwise
        (fun a b => b.score ≤ a.score)) :=
  ⟨⟨by decide, by decide⟩,
    c1_merge_multiple_results 60 exC1Lists (by decide) (by decide)⟩

/-! ### `RRFMerger.merge_results` (rrf_merger.py, lines 78-173) -/

/-- Per-`data_id` accumulator entry of `merge_results`:
`defaultdict(lambda: {"embedding_rank": None, "bm25_rank": None,
"metadata": {}})`; `hasContent` tracks whether the `"content"` (and with it
the `"tokens"`) key has been set. -/
structure TwoInfo where
  embedding_rank : Option Nat := none
  bm25_rank : Option Nat := none
  hasContent : Bool := false
  content : String := ""
  tokens : Nat := 0
  embedding_score : Option ℚ := none
  bm25_score : Option ℚ := none
  metadata : Metadata := {}
deriving DecidableEq

/-- Ordered-dict update of the two-list `data_scores` at key `k`. -/
def updTwo (k : String) (f : TwoInfo → TwoInfo) :
    List (String × TwoInfo) → List (String × TwoInfo)
  | [] => [(k, f {})]
  | (k', v) :: rest =>
    if k' = k then (k', f v) :: rest else (k', v) :: updTwo k f rest

/-- One iteration of the embedding loop of `merge_results`: the rank is set
only for a truthy `data_id`, but the remaining keys are written on every
iteration. -/
def embTouch (rk : Nat) (r : RetrievalResult)
    (ds : List (String × TwoInfo)) : List (String × TwoInfo) :=
  updTwo r.data_id (fun i =>
    { i with
      embedding_rank := if r.data_id = "" then i.embedding_rank else some rk
      content := r.content
      hasContent := true
      metadata := i.metadata.updateWith r.metadata
      tokens := r.tokens
      embedding_score := some r.score }) ds

/-- One iteration of the BM25 loop of `merge_results`: content and tokens
are only written if the entry does not yet carry a `"content"` key. -/
def bmTouch (rk : Nat) (r : RetrievalResult)
    (ds : List (String × TwoInfo)) : List (String × TwoInfo) :=
  updTwo r.data_id (fun i =>
    { i with
      bm25_rank := if r.data_id = "" then i.bm25_rank else some rk
      content := if i.hasContent then i.content else r.content
      tokens := if i.hasContent then i.tokens else r.tokens
      hasContent := true
      metadata := i.metadata.updateWith r.metadata
      bm25_score := some r.score }) ds

def embLoop : Nat → List RetrievalResult → List (String × TwoInfo) →
    List (String × TwoInfo)
  | _, [], ds => ds
  | rk, r :: rs, ds => embLoop (rk + 1) rs (embTouch rk r ds)

def bmLoop : Nat → List RetrievalResult → List (String × TwoInfo) →
    List (String × TwoInfo)
  | _, [], ds => ds
  | rk, r :: rs, ds => bmLoop (rk + 1) rs (bmTouch rk r ds)

/-- The weighted RRF score of one `data_scores` entry in `merge_results`. -/
def twoScore (k : Nat) (embedding_weight bm25_weight : ℚ) (i : TwoInfo) : ℚ :=
  (match i.embedding_rank with
    | some rk => embedding_weight / ((k : ℚ) + rk)
    | none => 0) +
  (match i.bm25_rank with
    | some rk => bm25_weight / ((k : ℚ) + rk)
    | none => 0)

/-- The merged record `merge_results` builds per `data_scores` entry;
`collection_id` is emitted as `""` because the loop never stores it,
and content/tokens fall back to the defaults of `data.get`. -/
def mkMergedRecord (k : Nat) (embedding_weight bm25_weight : ℚ)
    (p : String × TwoInfo) : RetrievalResult :=
  { data_id := p.1
    collection_id := ""
    content := if p.2.hasContent then p.2.content else ""
    score := twoScore k embedding_weight bm25_weight p.2
    source := "rrf_merged"
    metadata := p.2.metadata
    tokens := if p.2.hasContent then p.2.tokens else 0 }

/-- `RRFMerger.merge_results`: per-list multi-vector merge, two rank
passes, weighted RRF scoring, and a descending stable sort. -/
def mergeResults (k : Nat) (embedding_results bm25_results : List RetrievalResult)
    (embedding_weight bm25_weight : ℚ) : List RetrievalResult :=
  let merged_embedding := mergeMultipleVectors embedding_results
  let merged_bm25 := mergeMultipleVectors bm25_results
  let ds := bmLoop 1 merged_bm25 (embLoop 1 merged_embedding [])
  sortDescByScore (ds.map (mkMergedRecord k embedding_weight bm25_weight))

/-- The two ranked lists of the specification's RRF determinism example. -/
def exC4Dense : List RetrievalResult :=
  [{ data_id := "A", collection_id := "c", content := "a", score := 9/10, source := "embedding" },
   { data_id := "B", collection_id := "c", content := "b", score := 7/10, source := "embedding" },
   { data_id := "C", collection_id := "c", content := "c", score := 5/10, source := "embedding" }]

def exC4Lex : List RetrievalResult :=
  [{ data_id := "B", collection_id := "c", content := "b", score := 8/10, source := "bm25" },
   { data_id := "D", collection_id := "c", content := "d", score := 6/10, source := "bm25" },
   { data_id := "A", collection_id := "c", content := "a", score := 4/10, source := "bm25" }]

/-- C4 (counterexample): on the specification's example the fused order is
not B, A, D, C — the code places C (score 0.6/63) above D (score 0.4/62). -/
theorem c4_merge_results_counterexample :
    ¬ ((mergeResults 60 exC4Dense exC4Lex (6/10) (4/10)).map
          RetrievalResult.data_id
        = ["B", "A", "D", "C"]) := by
  norm_num +decide [mergeResults, mergeMultipleVectors, groupByDataId, groupGo,
    insertGroup, mergeGroup, maxByScore, embLoop, bmLoop, embTouch, bmTouch,
    updTwo, twoScore, mkMergedRecord, sortDescByScore, sortBy, insBy,
    Metadata.updateWith, exC4Dense, exC4Lex]

/-- C4 (amended): with dense ranks A,B,C = 1,2,3 and lexical ranks
B,D,A = 1,2,3, weights 0.6/0.4 and k = 60, the fused output is in the exact
order B, A, C, D with scores B = 0.6/62 + 0.4/61, A = 0.6/61 + 0.4/63,
C = 0.6/63 and D = 0.4/62. -/
theorem c4_merge_results_amended :
    (mergeResults 60 exC4Dense exC4Lex (6/10) (4/10)).map
        (fun r => (r.data_id, r.score))
      = [("B", 6/10/62 + 4/10/61), ("A", 6/10/61 + 4/10/63),
         ("C", 6/10/63), ("D", 4/10/62)] := by
  norm_num +decide [mergeResults, mergeMultipleVectors, groupByDataId, groupGo,
    insertGroup, mergeGroup, maxByScore, embLoop, bmLoop, embTouch, bmTouch,
    updTwo, twoScore, mkMergedRecord, sortDescByScore, sortBy, insBy,
    Metadata.updateWith, exC4Dense, exC4Lex]

/-! ### `HybridRetriever.retrieve` (hybrid_retriever.py, lines 212-259) -/

/-- `HybridRetriever.retrieve`. A failed backend is modelled as `none`: its
`search` catches the exception and returns `[]`, which `retrieve` passes to
`rrf_merger.merge_results` (global instance, `k = 60`) together with the
caller's weights, unchanged. -/
def hybridRetrieve (initialized : Bool)
    (embOutcome bmOutcome : Option (List RetrievalResult))
    (embedding_weight bm25_weight : ℚ) : List RetrievalResult :=
  if initialized then
    mergeResults 60 (embOutcome.getD []) (bmOutcome.getD [])
      embedding_weight bm25_weight
  else []

theorem updateWith_empty (m : Metadata) : Metadata.updateWith {} m = m := by
  rcases m with ⟨vc, sc⟩
  cases vc <;> cases sc <;> rfl

theorem buildGroups_of_nodup : ∀ (l : List RetrievalResult),
    (l.map RetrievalResult.data_id).Nodup →
    buildGroups l = l.map (fun r => (r.data_id, [r]))
  | [] => by
    intro _
    simp [buildGroups]
  | r :: rs => by
    intro hnd
    simp only [List.map_cons, List.nodup_cons] at hnd
    have h1 : rs.filter (fun x => x.data_id == r.data_id) = [] := by
      rw [List.filter_eq_nil_iff]
      intro x hx
      simp only [beq_iff_eq]
      intro hc
      exact hnd.1 (by rw [← hc]; exact List.mem_map.mpr ⟨x, hx, rfl⟩)
    have h2 : rs.filter (fun x => !(x.data_id == r.data_id)) = rs := by
      rw [List.filter_eq_self]
      intro x hx
      simp only [Bool.not_eq_true', beq_eq_false_iff_ne, ne_eq]
      intro hc
      exact hnd.1 (by rw [← hc]; exact List.mem_map.mpr ⟨x, hx, rfl⟩)
    simp only [buildGroups, h1, h2, List.map_cons]
    rw [buildGroups_of_nodup rs hnd.2]

theorem flatten_map_singleton : ∀ (l : List α), (l.map (fun x => [x])).flatten = l
  | [] => rfl
  | x :: xs => by simp [flatten_map_singleton xs]

/-- On a list with valid, pairwise-distinct `data_id`s the multi-vector
merge is the identity. -/
theorem mergeMultipleVectors_nodup_id (l : List RetrievalResult)
    (hval : ∀ x ∈ l, x.data_id ≠ "")
    (hnd : (l.map RetrievalResult.data_id).Nodup) :
    mergeMultipleVectors l = l := by
  unfold mergeMultipleVectors
  rw [groupByDataId_eq l hval, buildGroups_of_nodup l hnd, List.map_map]
  have : ((fun p : String × List RetrievalResult => mergeGroup p.2) ∘
      fun r : RetrievalResult => (r.data_id, [r])) = fun r => [r] := by
    funext r
    rfl
  rw [this, flatten_map_singleton]

theorem updTwo_fresh (k : String) (f : TwoInfo → TwoInfo) :
    ∀ (ds : List (String × TwoInfo)), k ∉ ds.map Prod.fst →
      updTwo k f ds = ds ++ [(k, f {})]
  | [], _ => rfl
  | (k', v) :: rest, h => by
    simp only [List.map_cons, List.mem_cons] at h
    push_neg at h
    simp only [updTwo]
    rw [if_neg (fun hc => h.1 hc.symm), updTwo_fresh k f rest h.2]
    simp

/-- The entry one BM25-loop iteration creates for a fresh, valid record. -/
def bmEntry (rk : Nat) (r : RetrievalResult) : TwoInfo :=
  { bm25_rank := some rk
    hasContent := true
    content := r.content
    tokens := r.tokens
    metadata := r.metadata
    bm25_score := some r.score }

/-- The entry one embedding-loop iteration creates for a fresh, valid
record. -/
def embEntry (rk : Nat) (r : RetrievalResult) : TwoInfo :=
  { embedding_rank := some rk
    hasContent := true
    content := r.content
    tokens := r.tokens
    metadata := r.metadata
    embedding_score := some r.score }

def bmIdeal : Nat → List RetrievalResult → List (String × TwoInfo)
  | _, [] => []
  | n, r :: rs => (r.data_id, bmEntry n r) :: bmIdeal (n + 1) rs

def embIdeal : Nat → List RetrievalResult → List (String × TwoInfo)
  | _, [] => []
  | n, r :: rs => (r.data_id, embEntry n r) :: embIdeal (n + 1) rs

theorem bmLoop_fresh : ∀ (L : List RetrievalResult) (n : Nat)
    (ds : List (String × TwoInfo)),
    (∀ x ∈ L, x.data_id ≠ "") →
    (L.map RetrievalResult.data_id).Nodup →
    (∀ x ∈ L, x.data_id ∉ ds.map Prod.fst) →
    bmLoop n L ds = ds ++ bmIdeal n L
  | [], n, ds, _, _, _ => by simp [bmLoop, bmIdeal]
  | r :: rs, n, ds, hval, hnd, hfresh => by
    simp only [List.map_cons, List.nodup_cons] at hnd
    have hrv : r.data_id ≠ "" := hval r (List.mem_cons_self r rs)
    have hfr : r.data_id ∉ ds.map Prod.fst := hfresh r (List.mem_cons_self r rs)
    have ht : bmTouch n r ds = ds ++ [(r.data_id, bmEntry n r)] := by
      unfold bmTouch
      rw [updTwo_fresh _ _ ds hfr]
      simp [bmEntry, if_neg hrv, updateWith_empty]
    simp only [bmLoop, ht]
    rw [bmLoop_fresh rs (n + 1) (ds ++ [(r.data_id, bmEntry n r)])
      (fun x hx => hval x (List.mem_cons_of_mem r hx)) hnd.2 ?_]
    · rw [List.append_assoc]
      rfl
    · intro x hx
      simp only [List.map_append, List.mem_append, List.map_cons, List.map_nil,
        List.mem_singleton]
      push_neg
      refine ⟨hfresh x (List.mem_cons_of_mem r hx), ?_⟩
      intro hc
      exact hnd.1 (by rw [← hc]; exact List.mem_map.mpr ⟨x, hx, rfl⟩)

theorem embLoop_fresh : ∀ (L : List RetrievalResult) (n : Nat)
    (ds : List (String × TwoInfo)),
    (∀ x ∈ L, x.data_id ≠ "") →
    (L.map RetrievalResult.data_id).Nodup →
    (∀ x ∈ L, x.data_id ∉ ds.map Prod.fst) →
    embLoop n L ds = ds ++ embIdeal n L
  | [], n, ds, _, _, _ => by simp [embLoop, embIdeal]
  | r :: rs, n, ds, hval, hnd, hfresh => by
    simp only [List.map_cons, List.nodup_cons] at hnd
    have hrv : r.data_id ≠ "" := hval r (List.mem_cons_self r rs)
    have hfr : r.data_id ∉ ds.map Prod.fst := hfresh r (List.mem_cons_self r rs)
    have ht : embTouch n r ds = ds ++ [(r.data_id, embEntry n r)] := by
      unfold embTouch
      rw [updTwo_fresh _ _ ds hfr]
      simp [embEntry, if_neg hrv, updateWith_empty]
    simp only [embLoop, ht]
    rw [embLoop_fresh rs (n + 1) (ds ++ [(r.data_id, embEntry n r)])
      (fun x hx => hval x (List.mem_cons_of_mem r hx)) hnd.2 ?_]
    · rw [List.append_assoc]
      rfl
    · intro x hx
      simp only [List.map_append, List.mem_append, List.map_cons, List.map_nil,
        List.mem_singleton]
      push_neg
      refine ⟨hfresh x (List.mem_cons_of_mem r hx), ?_⟩
      intro hc
      exact hnd.1 (by rw [← hc]; exact List.mem_map.mpr ⟨x, hx, rfl⟩)

/-- The claimed per-rank scores of a single surviving backend list. -/
def oneSidedSpec (w : ℚ) (k : Nat) : Nat → List RetrievalResult →
    List (String × ℚ)
  | _, [] => []
  | n, r :: rs => (r.data_id, w / ((k : ℚ) + n)) :: oneSidedSpec w k (n + 1) rs

theorem sortDescByScore_eq_self {l : List RetrievalResult}
    (h : l.Pairwise (fun a b => b.score ≤ a.score)) :
    sortDescByScore l = l :=
  sortBy_eq_self (h.imp (fun hab => by simpa using hab))

theorem rrf_div_mono {w : ℚ} (hw : 0 ≤ w) (n : Nat) :
    w / ((60 : ℚ) + ((n : ℚ) + 1)) ≤ w / ((60 : ℚ) + (n : ℚ)) := by
  have h1 : (0 : ℚ) < (60 : ℚ) + (n : ℚ) := by positivity
  have h2 : (60 : ℚ) + (n : ℚ) ≤ (60 : ℚ) + ((n : ℚ) + 1) := by linarith
  exact div_le_div_of_nonneg_left hw h1 h2

theorem bmIdeal_map_score (ew bw : ℚ) :
    ∀ (L : List RetrievalResult) (n : Nat),
      ((bmIdeal n L).map (mkMergedRecord 60 ew bw)).map
          (fun r => (r.data_id, r.score))
        = oneSidedSpec bw 60 n L
  | [], _ => rfl
  | r :: rs, n => by
    simp only [bmIdeal, oneSidedSpec, List.map_cons]
    rw [bmIdeal_map_score ew bw rs (n + 1)]
    simp [mkMergedRecord, twoScore, bmEntry]

theorem embIdeal_map_score (ew bw : ℚ) :
    ∀ (L : List RetrievalResult) (n : Nat),
      ((embIdeal n L).map (mkMergedRecord 60 ew bw)).map
          (fun r => (r.data_id, r.score))
        = oneSidedSpec ew 60 n L
  | [], _ => rfl
  | r :: rs, n => by
    simp only [embIdeal, oneSidedSpec, List.map_cons]
    rw [embIdeal_map_score ew bw rs (n + 1)]
    simp [mkMergedRecord, twoScore, embEntry]

theorem bmIdeal_sorted (ew : ℚ) {bw : ℚ} (hbw : 0 ≤ bw) :
    ∀ (L : List RetrievalResult) (n : Nat),
      ((bmIdeal n L).map (mkMergedRecord 60 ew bw)).Pairwise
          (fun a b => b.score ≤ a.score) ∧
      (∀ y ∈ (bmIdeal n L).map (mkMergedRecord 60 ew bw),
        y.score ≤ bw / ((60 : ℚ) + (n : ℚ)))
  | [], _ => by simp [bmIdeal]
  | r :: rs, n => by
    have ih := bmIdeal_sorted ew hbw rs (n + 1)
    have hhead : (mkMergedRecord 60 ew bw (r.data_id, bmEntry n r)).score
        = bw / ((60 : ℚ) + (n : ℚ)) := by
      simp [mkMergedRecord, twoScore, bmEntry]
    have hstep : ∀ y ∈ (bmIdeal (n + 1) rs).map (mkMergedRecord 60 ew bw),
        y.score ≤ bw / ((60 : ℚ) + (n : ℚ)) := by
      intro y hy
      refine le_trans (ih.2 y hy) ?_
      have := rrf_div_mono hbw n
      push_cast at this ⊢
      linarith
    constructor
    · simp only [bmIdeal, List.map_cons]
      refine List.pairwise_cons.mpr ⟨?_, ih.1⟩
      intro y hy
      rw [hhead]
      exact hstep y hy
    · intro y hy
      simp only [bmIdeal, List.map_cons, List.mem_cons] at hy
      rcases hy with rfl | hy
      · rw [hhead]
      · exact hstep y hy

theorem embIdeal_sorted (bw : ℚ) {ew : ℚ} (hew : 0 ≤ ew) :
    ∀ (L : List RetrievalResult) (n : Nat),
      ((embIdeal n L).map (mkMergedRecord 60 ew bw)).Pairwise
          (fun a b => b.score ≤ a.score) ∧
      (∀ y ∈ (embIdeal n L).map (mkMergedRecord 60 ew bw),
        y.score ≤ ew / ((60 : ℚ) + (n : ℚ)))
  | [], _ => by simp [embIdeal]
  | r :: rs, n => by
    have ih := embIdeal_sorted bw hew rs (n + 1)
    have hhead : (mkMergedRecord 60 ew bw (r.data_id, embEntry n r)).score
        = ew / ((60 : ℚ) + (n : ℚ)) := by
      simp [mkMergedRecord, twoScore, embEntry]
    have hstep : ∀ y ∈ (embIdeal (n + 1) rs).map (mkMergedRecord 60 ew bw),
        y.score ≤ ew / ((60 : ℚ) + (n : ℚ)) := by
      intro y hy
      refine le_trans (ih.2 y hy) ?_
      have := rrf_div_mono hew n
      push_cast at this ⊢
      linarith
    constructor
    · simp only [embIdeal, List.map_cons]
      refine List.pairwise_cons.mpr ⟨?_, ih.1⟩
      intro y hy
      rw [hhead]
      exact hstep y hy
    · intro y hy
      simp only [embIdeal, List.map_cons, List.mem_cons] at hy
      rcases hy with rfl | hy
      · rw [hhead]
      · exact hstep y hy

/-- C6 (amended): when exactly one backend fails, `retrieve` proceeds with
the surviving backend alone, each record scored with that backend's
configured weight — `w/(k+rank)`, the weight is *not* renormalized — in the
surviving list's order; when both backends fail (or the retriever is
uninitialized), it returns the empty list. -/
theorem c6_hybrid_failure_amended (es bs : List RetrievalResult) (ew bw : ℚ)
    (hew : 0 ≤ ew) (hbw : 0 ≤ bw)
    (heval : ∀ x ∈ es, x.data_id ≠ "")
    (hend : (es.map RetrievalResult.data_id).Nodup)
    (hbval : ∀ x ∈ bs, x.data_id ≠ "")
    (hbnd : (bs.map RetrievalResult.data_id).Nodup) :
    hybridRetrieve false (some es) (some bs) ew bw = [] ∧
    hybridRetrieve true none none ew bw = [] ∧
    (hybridRetrieve true none (some bs) ew bw).map (fun r => (r.data_id, r.score))
      = oneSidedSpec bw 60 1 bs ∧
    (hybridRetrieve true (some es) none ew bw).map (fun r => (r.data_id, r.score))
      = oneSidedSpec ew 60 1 es := by
  refine ⟨rfl, rfl, ?_, ?_⟩
  · show (mergeResults 60 [] bs ew bw).map (fun r => (r.data_id, r.score))
      = oneSidedSpec bw 60 1 bs
    unfold mergeResults
    rw [mergeMultipleVectors_nodup_id bs hbval hbnd]
    show (sortDescByScore ((bmLoop 1 bs (embLoop 1 [] [])).map
      (mkMergedRecord 60 ew bw))).map (fun r => (r.data_id, r.score))
      = oneSidedSpec bw 60 1 bs
    rw [show embLoop 1 ([] : List RetrievalResult) [] = [] from rfl,
      bmLoop_fresh bs 1 [] hbval hbnd (by simp), List.nil_append,
      sortDescByScore_eq_self (bmIdeal_sorted ew hbw bs 1).1,
      bmIdeal_map_score ew bw bs 1]
  · show (mergeResults 60 es [] ew bw).map (fun r => (r.data_id, r.score))
      = oneSidedSpec ew 60 1 es
    unfold mergeResults
    rw [mergeMultipleVectors_nodup_id es heval hend]
    show (sortDescByScore ((bmLoop 1 [] (embLoop 1 es [])).map
      (mkMergedRecord 60 ew bw))).map (fun r => (r.data_id, r.score))
      = oneSidedSpec ew 60 1 es
    rw [embLoop_fresh es 1 [] heval hend (by simp), List.nil_append,
      show ∀ ds, bmLoop 1 ([] : List RetrievalResult) ds = ds from fun _ => rfl,
      sortDescByScore_eq_self (embIdeal_sorted bw hew es 1).1,
      embIdeal_map_score ew bw es 1]

/-- A single surviving lexical record for the C6 counterexample. -/
def exC6R : RetrievalResult :=
  { data_id := "B", collection_id := "c", content := "b", score := 8/10, source := "bm25" }

/-- C6 (counterexample): with the dense backend failed and one surviving
lexical record, the emitted score is the configured `0.4/(60+1)`, not the
renormalized `1.0/(60+1)` the claim asserts. -/
theorem c6_hybrid_failure_counterexample :
    (hybridRetrieve true none (some [exC6R]) (6/10) (4/10)).map
        RetrievalResult.score = [4/10/61] ∧
    ¬ ((4 : ℚ)/10/61 = 1/61) := by
  constructor
  · norm_num +decide [hybridRetrieve, mergeResults, mergeMultipleVectors,
      groupByDataId, groupGo, insertGroup, mergeGroup, maxByScore, embLoop,
      bmLoop, embTouch, bmTouch, updTwo, twoScore, mkMergedRecord,
      sortDescByScore, sortBy, insBy, Metadata.updateWith, exC6R]
  · norm_num

/-- Witness: the amended C6 theorem applied to the concrete example lists. -/
theorem c6_hybrid_failure_amended_witness :
    ((0 : ℚ) ≤ 6/10 ∧ (0 : ℚ) ≤ 4/10 ∧
      (∀ x ∈ exC4Dense, x.data_id ≠ "") ∧
      (exC4Dense.map RetrievalResult.data_id).Nodup ∧
      (∀ x ∈ exC4Lex, x.data_id ≠ "") ∧
      (exC4Lex.map RetrievalResult.data_id).Nodup) ∧
    ((hybridRetrieve true none (some exC4Lex) (6/10) (4/10)).map
        (fun r => (r.data_id, r.score))
      = oneSidedSpec (4/10) 60 1 exC4Lex) :=
  ⟨⟨by norm_num, by norm_num, by decide, by decide, by decide, by decide⟩,
    (c6_hybrid_failure_amended exC4Dense exC4Lex (6/10) (4/10)
      (by norm_num) (by norm_num) (by decide) (by decide) (by decide)
      (by decide)).2.2.1⟩

/-! ### `TokenRelevanceFilter` (token_relevance_filter.py) -/

def sumTokens (l : List RerankResult) : Nat :=
  (l.map RerankResult.tokens).sum

/-- `TokenRelevanceFilter._filter_by_relevance`. -/
def filterByRelevance (results : List RerankResult) (threshold : ℚ)
    (min_results : Nat) : List RerankResult :=
  let high_relevance := results.filter (fun r => threshold ≤ r.final_score)
  if high_relevance.length < min_results then results.take min_results
  else high_relevance

/-- Token normalization at the head of `_filter_by_tokens`: a record with
`tokens == 0` gets its tokens recomputed from its content. `countTokens`
abstracts `_count_tokens` (it wraps the external tiktoken encoder, with a
`len(text) // 4` fallback). -/
def normalizeTokens (countTokens : String → Nat) (r : RerankResult) :
    RerankResult :=
  if r.tokens = 0 then { r with tokens := countTokens r.content } else r

/-- The accumulation loop of `_filter_by_tokens`: admit while the running
sum stays within budget; past the budget, admit only while fewer than
`min_results` records were taken; otherwise stop. -/
def fbtGo (max_tokens min_results : Nat) :
    List RerankResult → Nat → List RerankResult → List RerankResult
  | acc, _, [] => acc
  | acc, total, r :: rs =>
    if total + r.tokens ≤ max_tokens then
      fbtGo max_tokens min_results (acc ++ [r]) (total + r.tokens) rs
    else if acc.length < min_results then
      fbtGo max_tokens min_results (acc ++ [r]) (total + r.tokens) rs
    else
      acc

/-- `TokenRelevanceFilter._filter_by_tokens`. -/
def filterByTokens (countTokens : String → Nat) (results : List RerankResult)
    (max_tokens min_results : Nat) : List RerankResult :=
  if results = [] then []
  else fbtGo max_tokens min_results [] 0 (results.map (normalizeTokens countTokens))

/-- Ordered-dict assignment on the `document_counts` dict. -/
def setCount (k : String) (v : Nat) : List (String × Nat) → List (String × Nat)
  | [] => [(k, v)]
  | (k', v') :: rest =>
    if k' = k then (k', v) :: rest else (k', v') :: setCount k v rest

/-- `document_counts.get(doc_id, 0)`. -/
def getCount (k : String) (counts : List (String × Nat)) : Nat :=
  match counts.find? (fun p => p.1 == k) with
  | some p => p.2
  | none => 0

/-- First pass of `_preserve_diversity`: admit at most one record per
collection while the budget permits; the first over-budget fresh collection
stops the pass (`break`). Returns the admitted records, the per-collection
counts and the running token total. -/
def pass1 (max_tokens : Nat) :
    List (String × Nat) → List RerankResult → Nat → List RerankResult →
      List RerankResult × List (String × Nat) × Nat
  | counts, acc, total, [] => (acc, counts, total)
  | counts, acc, total, r :: rs =>
    if (counts.find? (fun p => p.1 == r.collection_id)).isNone then
      (if total + r.tokens ≤ max_tokens then
        pass1 max_tokens (counts ++ [(r.collection_id, 1)]) (acc ++ [r])
          (total + r.tokens) rs
      else (acc, counts, total))
    else pass1 max_tokens counts acc total rs

/-- Second pass of `_preserve_diversity`: admit records not yet taken while
the collection's count stays below 2 and the budget permits. -/
def pass2 (max_tokens : Nat) :
    List (String × Nat) → List RerankResult → Nat → List RerankResult →
      List RerankResult
  | _, acc, _, [] => acc
  | counts, acc, total, r :: rs =>
    if r ∈ acc then pass2 max_tokens counts acc total rs
    else
      (if getCount r.collection_id counts < 2 ∧
          total + r.tokens ≤ max_tokens then
        pass2 max_tokens (setCount r.collection_id
            (getCount r.collection_id counts + 1) counts)
          (acc ++ [r]) (total + r.tokens) rs
      else pass2 max_tokens counts acc total rs)

/-- `results.index(x)`: the index of the first occurrence. -/
def idxIn : List RerankResult → RerankResult → Nat
  | [], _ => 0
  | y :: ys, x => if y = x then 0 else idxIn ys x + 1

/-- `TokenRelevanceFilter._preserve_diversity`. -/
def preserveDiversity (max_tokens : Nat) (results : List RerankResult) :
    List RerankResult :=
  if results.length ≤ 3 then results
  else
    let t1 := pass1 max_tokens [] [] 0 results
    let dr := if t1.2.2 < max_tokens then
        pass2 max_tokens t1.2.1 t1.1 t1.2.2 results
      else t1.1
    sortBy (fun a b => decide (idxIn results a ≤ idxIn results b)) dr

/-- `TokenRelevanceFilter.filter_results`. The `_add_filter_metadata`
annotation is not modelled: the `RerankResult` metadata bag carries no
claim-relevant keys. -/
def filterResults (countTokens : String → Nat) (results : List RerankResult)
    (max_tokens : Nat) (relevance_threshold : ℚ) (min_results : Nat)
    (preserve_diversity : Bool) : List RerankResult :=
  if results = [] then []
  else
    let relevance_filtered :=
      filterByRelevance results relevance_threshold min_results
    let token_filtered :=
      filterByTokens countTokens relevance_filtered max_tokens min_results
    if preserve_diversity ∧ min_results < token_filtered.length then
      preserveDiversity max_tokens token_filtered
    else token_filtered

theorem sumTokens_append_one (acc : List RerankResult) (r : RerankResult) :
    sumTokens (acc ++ [r]) = sumTokens acc + r.tokens := by
  simp [sumTokens]

/-- Token-gate invariant: if the final cut holds more than `min_results`
records, every admission was in-budget, so the total stays within budget. -/
theorem fbtGo_sum (max_tokens min_results : Nat) :
    ∀ (rest acc : List RerankResult) (total : Nat),
      total = sumTokens acc →
      (min_results < acc.length → total ≤ max_tokens) →
      min_results < (fbtGo max_tokens min_results acc total rest).length →
      sumTokens (fbtGo max_tokens min_results acc total rest) ≤ max_tokens
  | [], acc, total, htot, hinv, hlen => by
    simp only [fbtGo] at hlen ⊢
    rw [← htot]
    exact hinv hlen
  | r :: rs, acc, total, htot, hinv, hlen => by
    simp only [fbtGo] at hlen ⊢
    by_cases h1 : total + r.tokens ≤ max_tokens
    · rw [if_pos h1] at hlen ⊢
      exact fbtGo_sum max_tokens min_results rs (acc ++ [r]) (total + r.tokens)
        (by rw [sumTokens_append_one, htot]) (fun _ => h1) hlen
    · rw [if_neg h1] at hlen ⊢
      by_cases h2 : acc.length < min_results
      · rw [if_pos h2] at hlen ⊢
        exact fbtGo_sum max_tokens min_results rs (acc ++ [r]) (total + r.tokens)
          (by rw [sumTokens_append_one, htot])
          (fun hc => by
            simp only [List.length_append, List.length_cons, List.length_nil] at hc
            omega) hlen
      · rw [if_neg h2] at hlen ⊢
        rw [← htot]
        exact hinv hlen

/-- The token gate admits at least `min(min_results, |input|)` records. -/
theorem fbtGo_min (max_tokens min_results : Nat) :
    ∀ (rest acc : List RerankResult) (total : Nat),
      min min_results (acc.length + rest.length) ≤
        (fbtGo max_tokens min_results acc total rest).length
  | [], acc, total => by
    simp only [fbtGo, List.length_nil, Nat.add_zero]
    exact Nat.min_le_right _ _
  | r :: rs, acc, total => by
    simp only [fbtGo]
    by_cases h1 : total + r.tokens ≤ max_tokens
    · rw [if_pos h1]
      have := fbtGo_min max_tokens min_results rs (acc ++ [r]) (total + r.tokens)
      simp only [List.length_append, List.length_cons, List.length_nil] at this ⊢
      omega
    · rw [if_neg h1]
      by_cases h2 : acc.length < min_results
      · rw [if_pos h2]
        have := fbtGo_min max_tokens min_results rs (acc ++ [r]) (total + r.tokens)
        simp only [List.length_append, List.length_cons, List.length_nil] at this ⊢
        omega
      · rw [if_neg h2]
        omega

theorem filterByTokens_sum (countTokens : String → Nat)
    (results : List RerankResult) (max_tokens min_results : Nat)
    (h : min_results <
      (filterByTokens countTokens results max_tokens min_results).length) :
    sumTokens (filterByTokens countTokens results max_tokens min_results)
      ≤ max_tokens := by
  unfold filterByTokens at h ⊢
  by_cases hr : results = []
  · rw [if_pos hr] at h
    simp at h
  · rw [if_neg hr] at h ⊢
    exact fbtGo_sum max_tokens min_results _ [] 0 rfl
      (fun hc => by simp at hc) h

theorem filterByTokens_min (countTokens : String → Nat)
    (results : List RerankResult) (max_tokens min_results : Nat) :
    min min_results results.length ≤
      (filterByTokens countTokens results max_tokens min_results).length := by
  unfold filterByTokens
  by_cases hr : results = []
  · subst hr
    simp
  · rw [if_neg hr]
    have := fbtGo_min max_tokens min_results
      (results.map (normalizeTokens countTokens)) [] 0
    simpa using this

theorem filterByRelevance_min (results : List RerankResult) (threshold : ℚ)
    (min_results : Nat) :
    min min_results results.length ≤
      (filterByRelevance results threshold min_results).length := by
  unfold filterByRelevance
  by_cases h : (results.filter (fun r => threshold ≤ r.final_score)).length
      < min_results
  · rw [if_pos h, List.length_take]
  · rw [if_neg h]
    push_neg at h
    exact le_trans (Nat.min_le_left _ _) h

theorem pass1_sum (max_tokens : Nat) :
    ∀ (rest : List RerankResult) (counts : List (String × Nat))
      (acc : List RerankResult) (total : Nat),
      total = sumTokens acc → total ≤ max_tokens →
      (pass1 max_tokens counts acc total rest).2.2
          = sumTokens (pass1 max_tokens counts acc total rest).1 ∧
      (pass1 max_tokens counts acc total rest).2.2 ≤ max_tokens
  | [], counts, acc, total, htot, hle => by
    simp only [pass1]
    exact ⟨htot, hle⟩
  | r :: rs, counts, acc, total, htot, hle => by
    simp only [pass1]
    by_cases h1 : ((counts.find? (fun p => p.1 == r.collection_id)).isNone) = true
    · rw [if_pos h1]
      by_cases h2 : total + r.tokens ≤ max_tokens
      · rw [if_pos h2]
        exact pass1_sum max_tokens rs _ (acc ++ [r]) (total + r.tokens)
          (by rw [sumTokens_append_one, htot]) h2
      · rw [if_neg h2]
        exact ⟨htot, hle⟩
    · rw [if_neg h1]
      exact pass1_sum max_tokens rs counts acc total htot hle

theorem pass2_sum (max_tokens : Nat) :
    ∀ (rest : List RerankResult) (counts : List (String × Nat))
      (acc : List RerankResult) (total : Nat),
      total = sumTokens acc → total ≤ max_tokens →
      sumTokens (pass2 max_tokens counts acc total rest) ≤ max_tokens
  | [], counts, acc, total, htot, hle => by
    simp only [pass2]
    rw [← htot]
    exact hle
  | r :: rs, counts, acc, total, htot, hle => by
    simp only [pass2]
    by_cases h1 : r ∈ acc
    · rw [if_pos h1]
      exact pass2_sum max_tokens rs counts acc total htot hle
    · rw [if_neg h1]
      by_cases h2 : getCount r.collection_id counts < 2 ∧
          total + r.tokens ≤ max_tokens
      · rw [if_pos h2]
        exact pass2_sum max_tokens rs _ (acc ++ [r]) (total + r.tokens)
          (by rw [sumTokens_append_one, htot]) h2.2
      · rw [if_neg h2]
        exact pass2_sum max_tokens rs counts acc total htot hle

theorem sumTokens_sortBy (f : RerankResult → RerankResult → Bool)
    (l : List RerankResult) : sumTokens (sortBy f l) = sumTokens l :=
  ((sortBy_perm f l).map RerankResult.tokens).sum_eq

theorem preserveDiversity_sum (max_tokens : Nat) (results : List RerankResult)
    (h3 : results.length ≤ 3 → sumTokens results ≤ max_tokens) :
    sumTokens (preserveDiversity max_tokens results) ≤ max_tokens := by
  unfold preserveDiversity
  by_cases hlen : results.length ≤ 3
  · rw [if_pos hlen]
    exact h3 hlen
  · rw [if_neg hlen]
    rw [sumTokens_sortBy]
    have hp1 := pass1_sum max_tokens results [] [] 0 rfl (Nat.zero_le _)
    by_cases hgate : (pass1 max_tokens [] [] 0 results).2.2 < max_tokens
    · rw [if_pos hgate]
      exact pass2_sum max_tokens results _ _ _ hp1.1 hp1.2
    · rw [if_neg hgate]
      rw [← hp1.1]
      exact hp1.2

/-- A token counter for the concrete examples (never consulted: all example
records carry nonzero token counts). -/
def ctZero : String → Nat := fun _ => 0

/-- Records with tokens 1500, 1800, 1200 for the first C3 example. -/
def exR1500 : RerankResult :=
  { data_id := "a1", collection_id := "c1", content := "x1",
    original_score := 1, rerank_score := 1, final_score := 1, tokens := 1500 }

def exR1800 : RerankResult :=
  { data_id := "a2", collection_id := "c2", content := "x2",
    original_score := 1, rerank_score := 1, final_score := 1, tokens := 1800 }

def exR1200 : RerankResult :=
  { data_id := "a3", collection_id := "c3", content := "x3",
    original_score := 1, rerank_score := 1, final_score := 1, tokens := 1200 }

def exC3a : List RerankResult := [exR1500, exR1800, exR1200]

/-- Three records of 3000 tokens each for the second C3 example. -/
def exR3000 (i : Nat) : RerankResult :=
  { data_id := "b" ++ toString i, collection_id := "c", content := "y",
    original_score := 1, rerank_score := 1, final_score := 1, tokens := 3000 }

def exC3b : List RerankResult := [exR3000 0, exR3000 1, exR3000 2]

/-- Four small same-collection records for the C3 counterexample. -/
def exSameColl (i : Nat) : RerankResult :=
  { data_id := "s" ++ toString i, collection_id := "X", content := "z",
    original_score := 1, rerank_score := 1, final_score := 1, tokens := 10 }

def exC3c : List RerankResult :=
  [exSameColl 0, exSameColl 1, exSameColl 2, exSameColl 3]

/-- C3 (counterexample): with diversity enabled (its default), min_results 3
and four in-budget records of one collection, `filter_results` returns only
2 records — fewer than `min(min_results, |input|) = 3`. -/
theorem c3_filter_results_counterexample :
    (filterResults ctZero exC3c 4000 0 3 true).length = 2 ∧
    ¬ (min 3 exC3c.length ≤ (filterResults ctZero exC3c 4000 0 3 true).length) := by
  decide

/-- C3 (amended): on a non-empty input, (i) whenever the output holds more
than `min_results` records its token sum is within `max_tokens`; (ii) with
diversity disabled the output always holds at least
`min(min_results, |input|)` records (with diversity enabled the two-per-
collection cap can push it below); and the two concrete token-budget
examples of the specification hold as stated (they disable diversity). -/
theorem c3_filter_results_amended (countTokens : String → Nat)
    (results : List RerankResult) (max_tokens : Nat)
    (relevance_threshold : ℚ) (min_results : Nat)
    (preserve_diversity : Bool) (hne : results ≠ []) :
    ((min_results < (filterResults countTokens results max_tokens
          relevance_threshold min_results preserve_diversity).length →
        sumTokens (filterResults countTokens results max_tokens
          relevance_threshold min_results preserve_diversity) ≤ max_tokens) ∧
      (preserve_diversity = false →
        min min_results results.length ≤ (filterResults countTokens results
          max_tokens relevance_threshold min_results
          preserve_diversity).length)) ∧
    filterResults ctZero exC3a 4000 0 1 false = [exR1500, exR1800] ∧
    filterResults ctZero exC3b 4000 0 1 false = [exR3000 0] := by
  refine ⟨?_, by decide, by decide⟩
  unfold filterResults
  rw [if_neg hne]
  constructor
  · intro hlen
    by_cases hc : preserve_diversity = true ∧ min_results <
        (filterByTokens countTokens
          (filterByRelevance results relevance_threshold min_results)
          max_tokens min_results).length
    · rw [if_pos hc] at hlen ⊢
      apply preserveDiversity_sum
      intro _
      exact filterByTokens_sum countTokens _ max_tokens min_results hc.2
    · rw [if_neg hc] at hlen ⊢
      exact filterByTokens_sum countTokens _ max_tokens min_results hlen
  · intro hpd
    subst hpd
    rw [if_neg (by simp)]
    calc min min_results results.length
        = min min_results (min min_results results.length) := by
          rw [← min_assoc, min_self]
      _ ≤ min min_results (filterByRelevance results relevance_threshold
            min_results).length :=
          min_le_min_left _ (filterByRelevance_min results relevance_threshold
            min_results)
      _ ≤ _ := filterByTokens_min countTokens _ max_tokens min_results

/-- Witness: the amended C3 theorem applied to the first concrete example. -/
theorem c3_filter_results_amended_witness :
    exC3a ≠ [] ∧
    ((1 < (filterResults ctZero exC3a 4000 0 1 false).length →
        sumTokens (filterResults ctZero exC3a 4000 0 1 false) ≤ 4000) ∧
      (false = false →
        min 1 exC3a.length ≤ (filterResults ctZero exC3a 4000 0 1 false).length)) :=
  ⟨by decide, (c3_filter_results_amended ctZero exC3a 4000 0 1 false (by decide)).1⟩

/-- The five diversity-example records: collections X, X, Y, X, Z. -/
def exC5r0 : RerankResult :=
  { data_id := "d0", collection_id := "X", content := "t0",
    original_score := 1, rerank_score := 1, final_score := 1, tokens := 100 }

def exC5r1 : RerankResult :=
  { data_id := "d1", collection_id := "X", content := "t1",
    original_score := 1, rerank_score := 1, final_score := 1, tokens := 100 }

def exC5r2 : RerankResult :=
  { data_id := "d2", collection_id := "Y", content := "t2",
    original_score := 1, rerank_score := 1, final_score := 1, tokens := 100 }

def exC5r3 : RerankResult :=
  { data_id := "d3", collection_id := "X", content := "t3",
    original_score := 1, rerank_score := 1, final_score := 1, tokens := 100 }

def exC5r4 : RerankResult :=
  { data_id := "d4", collection_id := "Z", content := "t4",
    original_score := 1, rerank_score := 1, final_score := 1, tokens := 100 }

def exC5 : List RerankResult := [exC5r0, exC5r1, exC5r2, exC5r3, exC5r4]

/-- C5 (counterexample): the claimed final selection [0,1,2,3,4] is wrong —
index 3 (the third X) is rejected by the two-per-collection cap. -/
theorem c5_diversity_counterexample :
    ¬ ((filterResults ctZero exC5 1000 0 1 true).map RerankResult.data_id
        = ["d0", "d1", "d2", "d3", "d4"]) := by
  decide

/-- C5 (amended): on the five records with collections [X,X,Y,X,Z], tokens
100 each and budget 1000, the first diversity pass admits indices [0,2,4],
the second pass admits index [1] only (the cap is two records per
collection in total), and the filter returns the records at indices
[0,1,2,4] in original relative order. -/
theorem c5_diversity_amended :
    (pass1 1000 [] [] 0 exC5).1 = [exC5r0, exC5r2, exC5r4] ∧
    pass2 1000 (pass1 1000 [] [] 0 exC5).2.1 (pass1 1000 [] [] 0 exC5).1
        (pass1 1000 [] [] 0 exC5).2.2 exC5
      = [exC5r0, exC5r2, exC5r4, exC5r1] ∧
    filterResults ctZero exC5 1000 0 1 true
      = [exC5r0, exC5r1, exC5r2, exC5r4] := by
  decide

/-! ### `BGEReranker` / `CustomReranker` (custom_reranker.py) -/

/-- `BGEReranker.rerank`, with the HTTP call's outcome passed explicitly.
`none` models a failed call — timeout, non-2xx (`raise_for_status`) or a
decoding error — all absorbed by the blanket `except`, which returns
`[0.5] * len(passages)`. `some items` models a 2xx JSON response carrying
`(index, relevance_score)` items from its `results`/`data` key (a response
with neither key leaves every score at the initial 0.0, i.e. `some []`). -/
def bgeRerank (passages : List String)
    (outcome : Option (List (Nat × ℚ))) : List ℚ :=
  match outcome with
  | none => List.replicate passages.length (1/2)
  | some items =>
    items.foldl (fun scores item =>
      if item.1 < scores.length then scores.set item.1 item.2 else scores)
      (List.replicate passages.length 0)

/-- `CustomReranker._convert_to_rerank_results`: identity records. -/
def convertToRerankResults (results : List RetrievalResult) : List RerankResult :=
  results.map (fun r =>
    { data_id := r.data_id
      collection_id := r.collection_id
      content := r.content
      original_score := r.score
      rerank_score := r.score
      final_score := r.score
      tokens := r.tokens })

/-- The scoring-and-sorting body of `CustomReranker.rerank_results`, given
the rerank scores returned by `batch_rerank`. -/
def rerankResultsWith (results : List RetrievalResult) (rerank_scores : List ℚ)
    (score_weight : ℚ) : List RerankResult :=
  sortBy (fun a b => decide (b.final_score ≤ a.final_score))
    ((results.zip rerank_scores).map (fun p =>
      { data_id := p.1.data_id
        collection_id := p.1.collection_id
        content := p.1.content
        original_score := p.1.score
        rerank_score := p.2
        final_score := (1 - score_weight) * p.1.score + score_weight * p.2
        tokens := p.1.tokens }))

/-- `CustomReranker.rerank_results` on the path where the reranker is
initialized and the backend call fails: every batch of `batch_rerank`
falls back to `[0.5] * batch`, so the concatenated scores are
`[0.5] * len(results)`. -/
def rerankResultsOnBackendFailure (results : List RetrievalResult)
    (score_weight : ℚ) : List RerankResult :=
  rerankResultsWith results
    (bgeRerank (results.map RetrievalResult.content) none) score_weight

theorem zip_replicate (c : ℚ) :
    ∀ (l : List RetrievalResult),
      l.zip (List.replicate l.length c) = l.map (fun r => (r, c))
  | [] => rfl
  | x :: xs => by
    simp only [List.length_cons, List.replicate_succ, List.zip_cons_cons,
      List.map_cons]
    rw [zip_replicate c xs]

/-- C7 (amended): when the rerank backend fails, every emitted record
carries the fallback `rerank_score = 0.5` and
`final_score = (1 − w)·original + w·0.5`; identity records
(`rerank_score = final_score = original score`) are emitted only by the
uninitialized-reranker path (`_convert_to_rerank_results`). -/
theorem c7_rerank_failure_amended (results : List RetrievalResult)
    (score_weight : ℚ) :
    (∀ o ∈ rerankResultsOnBackendFailure results score_weight,
      o.rerank_score = 1/2 ∧
      o.final_score = (1 - score_weight) * o.original_score
        + score_weight * (1/2)) ∧
    (∀ o ∈ convertToRerankResults results,
      o.rerank_score = o.original_score ∧
      o.final_score = o.original_score) := by
  constructor
  · intro o ho
    unfold rerankResultsOnBackendFailure rerankResultsWith at ho
    have ho' := mem_sortBy.mp ho
    rw [show bgeRerank (results.map RetrievalResult.content) none
        = List.replicate results.length (1/2) by
      simp [bgeRerank], zip_replicate] at ho'
    rcases List.mem_map.mp ho' with ⟨p, hp, rfl⟩
    rcases List.mem_map.mp hp with ⟨r, hr, rfl⟩
    exact ⟨rfl, rfl⟩
  · intro o ho
    rcases List.mem_map.mp ho with ⟨r, _, rfl⟩
    exact ⟨rfl, rfl⟩

/-- A single retrieval record for the C7 example. -/
def exC7R : RetrievalResult :=
  { data_id := "r1", collection_id := "c", content := "t", score := 1,
    source := "embedding", tokens := 5 }

/-- C7 (counterexample): with the backend failed, the single record of
original score 1 and weight 0.7 is emitted with rerank_score 0.5 and
final_score 0.3·1 + 0.7·0.5 = 13/20 — not an identity record. -/
theorem c7_rerank_failure_counterexample :
    (rerankResultsOnBackendFailure [exC7R] (7/10)).map
        (fun o => (o.rerank_score, o.final_score)) = [(1/2, 13/20)] ∧
    ¬ ((rerankResultsOnBackendFailure [exC7R] (7/10)).map
        (fun o => (o.rerank_score, o.final_score)) = [((1 : ℚ), (1 : ℚ))]) := by
  constructor <;>
    norm_num +decide [rerankResultsOnBackendFailure, rerankResultsWith,
      bgeRerank, sortBy, insBy, exC7R]

/-- The record the failure path emits for `exC7R` at weight 0.7. -/
def exC7Out : RerankResult :=
  { data_id := "r1", collection_id := "c", content := "t",
    original_score := 1, rerank_score := 1/2,
    final_score := (1 - 7/10) * 1 + (7/10) * (1/2), tokens := 5 }

/-- Witness: the amended C7 theorem applied to the concrete record. -/
theorem c7_rerank_failure_amended_witness :
    exC7Out ∈ rerankResultsOnBackendFailure [exC7R] (7/10) ∧
    (exC7Out.rerank_score = 1/2 ∧
      exC7Out.final_score = (1 - 7/10) * exC7Out.original_score
        + (7/10) * (1/2)) :=
  ⟨by norm_num +decide [rerankResultsOnBackendFailure, rerankResultsWith,
      bgeRerank, sortBy, insBy, exC7R, exC7Out],
    (c7_rerank_failure_amended [exC7R] (7/10)).1 exC7Out
      (by norm_num +decide [rerankResultsOnBackendFailure, rerankResultsWith,
        bgeRerank, sortBy, insBy, exC7R, exC7Out])⟩

/-! ### `QueryOptimizer.optimize_query` (query_optimizer.py, lines 37-74) -/

/-- `ConversationTurn` (data_models.py); only the fields the optimizer
consults are modelled. -/
structure ConversationTurn where
  question : String
  answer : String
deriving DecidableEq

/-- Python `str.strip()`: leading and trailing whitespace removed
(kernel-computable, unlike `String.trim`). -/
def pyStrip (s : String) : String :=
  ⟨((s.data.dropWhile Char.isWhitespace).reverse.dropWhile
      Char.isWhitespace).reverse⟩

/-- `QueryOptimizer.optimize_query`. The LLM call's outcome is passed
explicitly: `none` models a raised exception (timeout, non-2xx), absorbed
by the blanket `except` that returns the original question; `some resp`
models `response.content`. The function is total: the optimizer never
raises to its caller. -/
def optimizeQuery (initialized : Bool) (current_question : String)
    (conversation_history : List ConversationTurn)
    (llmOutcome : Option String) : String :=
  if !initialized then current_question
  else if conversation_history = [] then current_question
  else match llmOutcome with
    | none => current_question
    | some resp =>
      let optimized_question := pyStrip resp
      if optimized_question = "" ∨ optimized_question.length < 10 then
        current_question
      else optimized_question

def exC9Q : String := "qqqqqqqqqqqqqqqqqqqq"

def exC9Resp : String := "rrrrrrrrrr"

/-- C9 (counterexample): the fallback threshold is an absolute 10
characters, not 80% of the original. A 10-character rewrite of a
20-character question is shorter than 80% of the original, yet the
optimizer returns the rewrite, not the original. -/
theorem c9_optimize_query_counterexample :
    optimizeQuery true exC9Q [⟨"q0", "a0"⟩] (some exC9Resp) = exC9Resp ∧
    exC9Resp ≠ exC9Q ∧
    (pyStrip exC9Resp).length * 10 < exC9Q.length * 8 := by
  decide

/-- C9 (amended): the optimizer returns the original question whenever the
history is empty, the LLM call fails, or the stripped rewrite is empty or
shorter than 10 characters (an absolute threshold, not 80% of the
original); being a total function, it never raises. -/
theorem c9_optimize_query_amended (initialized : Bool)
    (current_question : String)
    (conversation_history : List ConversationTurn)
    (llmOutcome : Option String)
    (h : conversation_history = [] ∨ llmOutcome = none ∨
      (∃ r, llmOutcome = some r ∧
        (pyStrip r = "" ∨ (pyStrip r).length < 10))) :
    optimizeQuery initialized current_question conversation_history llmOutcome
      = current_question := by
  unfold optimizeQuery
  by_cases hinit : initialized
  · simp only [hinit, Bool.not_true, Bool.false_eq_true, if_false]
    rcases h with h | h | ⟨r, hr, hcond⟩
    · rw [if_pos h]
    · by_cases hh : conversation_history = []
      · rw [if_pos hh]
      · rw [if_neg hh, h]
    · by_cases hh : conversation_history = []
      · rw [if_pos hh]
      · rw [if_neg hh, hr]
        simp only [if_pos hcond]
  · simp [hinit]

/-- Witness: the amended C9 theorem applied at empty history. -/
theorem c9_optimize_query_amended_witness :
    (([] : List ConversationTurn) = [] ∨ some "resp" = none ∨
      (∃ r, some "resp" = some r ∧
        (pyStrip r = "" ∨ (pyStrip r).length < 10))) ∧
    optimizeQuery true "q" [] (some "resp") = "q" :=
  ⟨Or.inl rfl, c9_optimize_query_amended true "q" [] (some "resp") (Or.inl rfl)⟩

/-! ### `RetrievalChain` responses (retrieval_chain.py) -/

/-- The response envelope of `RetrievalChain.run` (the claim-relevant
fields; the float-valued timing/score statistics are omitted). The
`error`/`no_results` keys are present only in the corresponding responses,
modelled as flags defaulting to false. -/
structure RagResponse where
  question : String
  answer : String
  query_id : String
  session_id : Option String
  tokens_used : Nat
  retrieved_chunks_count : Nat
  error : Bool := false
  no_results : Bool := false
deriving DecidableEq

/-- `RetrievalChain._create_error_response`: `session_id` is the literal
`None`. -/
def createErrorResponse (error_message : String) : RagResponse :=
  { question := ""
    answer := error_message
    query_id := ""
    session_id := none
    tokens_used := 0
    retrieved_chunks_count := 0
    error := true }

/-- `RetrievalChain._create_no_results_response`: `session_id` is the
literal `None`. -/
def createNoResultsResponse (question : String) (query_id : String) :
    RagResponse :=
  { question := question
    answer := "抱歉，我没有找到与您问题相关的信息。请尝试换个方式提问或提供更多详细信息。"
    query_id := query_id
    session_id := none
    tokens_used := 0
    retrieved_chunks_count := 0
    no_results := true }

/-- `RetrievalChain.run`, with the outcomes of the external stages passed
explicitly: `retrieval_results` is what `parallel_retriever` returned,
`rerankOutcome` the rerank backend's outcome (as in `bgeRerank`; consulted
only when `enable_rerank`), and `answer` the generated answer text.
Filtering runs with `min_results = 1` and diversity on, as in the source. -/
def retrievalChainRun (initialized : Bool) (question : String)
    (session_id : Option String) (query_id : String)
    (retrieval_results : List RetrievalResult) (enable_rerank : Bool)
    (rerankOutcome : Option (List (Nat × ℚ))) (countTokens : String → Nat)
    (max_tokens : Nat) (relevance_threshold : ℚ) (answer : String) :
    RagResponse :=
  if !initialized then createErrorResponse "系统未初始化，请稍后再试"
  else if retrieval_results = [] then createNoResultsResponse question query_id
  else
    let reranked := if enable_rerank then
        rerankResultsWith retrieval_results
          (bgeRerank (retrieval_results.map RetrievalResult.content)
            rerankOutcome) (7/10)
      else convertToRerankResults retrieval_results
    let filtered := filterResults countTokens reranked max_tokens
      relevance_threshold 1 true
    if filtered = [] then createNoResultsResponse question query_id
    else
      { question := question
        answer := answer
        query_id := query_id
        session_id := session_id
        tokens_used := sumTokens filtered
        retrieved_chunks_count := filtered.length }

/-- C10: the no-results and error responses of `RetrievalChain.run` carry
`session_id = None` even when the caller supplied one; only the success
envelope echoes the caller's `session_id`. -/
theorem c10_session_id (initialized : Bool) (question : String)
    (session_id : Option String) (query_id : String)
    (retrieval_results : List RetrievalResult) (enable_rerank : Bool)
    (rerankOutcome : Option (List (Nat × ℚ))) (countTokens : String → Nat)
    (max_tokens : Nat) (relevance_threshold : ℚ) (answer : String) :
    ((retrievalChainRun initialized question session_id query_id
        retrieval_results enable_rerank rerankOutcome countTokens max_tokens
        relevance_threshold answer).error = true ∨
     (retrievalChainRun initialized question session_id query_id
        retrieval_results enable_rerank rerankOutcome countTokens max_tokens
        relevance_threshold answer).no_results = true →
      (retrievalChainRun initialized question session_id query_id
        retrieval_results enable_rerank rerankOutcome countTokens max_tokens
        relevance_threshold answer).session_id = none) ∧
    ((retrievalChainRun initialized question session_id query_id
        retrieval_results enable_rerank rerankOutcome countTokens max_tokens
        relevance_threshold answer).error = false ∧
     (retrievalChainRun initialized question session_id query_id
        retrieval_results enable_rerank rerankOutcome countTokens max_tokens
        relevance_threshold answer).no_results = false →
      (retrievalChainRun initialized question session_id query_id
        retrieval_results enable_rerank rerankOutcome countTokens max_tokens
        relevance_threshold answer).session_id = session_id) := by
  unfold retrievalChainRun
  by_cases hinit : initialized
  · simp only [hinit, Bool.not_true, Bool.false_eq_true, if_false]
    by_cases hr : retrieval_results = []
    · rw [if_pos hr]
      constructor
      · intro _
        rfl
      · intro hc
        simp [createNoResultsResponse] at hc
    · rw [if_neg hr]
      by_cases hf : filterResults countTokens
          (if enable_rerank then
            rerankResultsWith retrieval_results
              (bgeRerank (retrieval_results.map RetrievalResult.content)
                rerankOutcome) (7/10)
          else convertToRerankResults retrieval_results) max_tokens
          relevance_threshold 1 true = []
      · simp only [hf, if_pos]
        constructor
        · intro _
          rfl
        · intro hc
          simp [createNoResultsResponse] at hc
      · simp only [hf, if_neg, if_false]
        constructor
        · intro hc
          rcases hc with hc | hc <;> simp at hc
        · intro h2
          trivial
  · simp [hinit, createErrorResponse]

/-- Witness: the no-results branch of C10 at concrete inputs — the caller
supplies a session id, the envelope carries none. -/
theorem c10_session_id_witness :
    (retrievalChainRun true "q" (some "sess") "qid" [] true none ctZero
        4000 0 "ans").session_id = none :=
  (c10_session_id true "q" (some "sess") "qid" [] true none ctZero
      4000 0 "ans").1 (Or.inr rfl)

/-! ### `DataImportService` (data_import_service.py)

The stores are modelled as explicit state: the MongoDB `data` rows and the
Milvus vectors. The time-based string ids (`_generate_*_id`) are modelled
as values of a strictly increasing counter, which captures the property the
code relies on: ids are fresh and unique. Effects whose outcomes the claim
depends on are passed in an environment: the encoding-fallback file read
(`none` = every decode failed), the pure chunker `_split_document` (its
output only feeds chunk contents, which the claim does not constrain), the
embedding call, and a fault schedule for `milvus_store.insert_vectors`
(`insertFails i` = the i-th insert call raises). `mongo_store.create_data`
duplicate-key failures cannot occur in the model because counter ids are
unique. -/

/-- A MongoDB `Data` row (`data_models.py`); `processed` and `vector_count`
model the corresponding `metadata` keys. -/
structure Data where
  id : Nat
  collection_id : Nat
  content : String
  vector_ids : List Nat := []
  processed : Bool := false
  vector_count : Nat := 0
  chunk_index : Nat := 0
deriving DecidableEq

/-- A Milvus vector row (`EmbeddingVector` in data_models.py). -/
structure EmbeddingVector where
  id : Nat
  data_id : Nat
  vector : List ℚ
  model : String
deriving DecidableEq

/-- The two stores plus the id counter and the insert-call counter. -/
structure ImportSt where
  rows : List Data
  vectors : List EmbeddingVector
  nextId : Nat
  insertCalls : Nat
deriving DecidableEq

/-- External effects of the import service. -/
structure ImportEnv where
  readFile : String → Option String
  splitDoc : String → List String
  embed : String → List ℚ
  insertFails : Nat → Bool

/-- Outcome record of `_import_single_file`. -/
structure FileResult where
  success : Bool
  data_created : Nat
  vectors_created : Nat
deriving DecidableEq

/-- Outcome record of `import_directory`. -/
structure ImportResult where
  success : Bool
  files_processed : Nat
  data_created : Nat
  vectors_created : Nat
deriving DecidableEq

/-- `_batch_store_chunks`: persist every chunk as an unprocessed `Data` row
with empty `vector_ids`; returns the created rows. -/
def batchStoreChunks (collection_id : Nat) :
    List String → Nat → ImportSt → List Data × ImportSt
  | [], _, st => ([], st)
  | chunk :: rest, i, st =>
    let d : Data :=
      { id := st.nextId
        collection_id := collection_id
        content := chunk
        vector_ids := []
        processed := false
        chunk_index := i }
    let st' : ImportSt :=
      { st with
        rows := st.rows ++ [d]
        nextId := st.nextId + 1 }
    let p := batchStoreChunks collection_id rest (i + 1) st'
    (d :: p.1, p.2)

/-- `_generate_batch_vectors`: one main vector per `Data`; a sub vector on
the first 512 characters when the content is longer than 512 characters. -/
def generateBatchVectors (embed : String → List ℚ) :
    List Data → ImportSt → List EmbeddingVector × ImportSt
  | [], st => ([], st)
  | d :: ds, st =>
    let main : EmbeddingVector :=
      { id := st.nextId
        data_id := d.id
        vector := embed d.content
        model := "bge-m3:latest" }
    let st1 : ImportSt := { st with nextId := st.nextId + 1 }
    if 512 < d.content.length then
      let sub : EmbeddingVector :=
        { id := st1.nextId
          data_id := d.id
          vector := embed ⟨d.content.data.take 512⟩
          model := "bge-m3:latest" }
      let st2 : ImportSt := { st1 with nextId := st1.nextId + 1 }
      let p := generateBatchVectors embed ds st2
      (main :: sub :: p.1, p.2)
    else
      let p := generateBatchVectors embed ds st1
      (main :: p.1, p.2)

/-- `_store_batch_vectors`: no-op on an empty batch, otherwise one Milvus
insert call which the fault schedule may fail. -/
def storeBatchVectors (env : ImportEnv) (vs : List EmbeddingVector)
    (st : ImportSt) : ImportSt × Except String Unit :=
  if vs = [] then (st, Except.ok ())
  else
    let st' : ImportSt := { st with insertCalls := st.insertCalls + 1 }
    if env.insertFails st.insertCalls then (st', Except.error "向量存储失败")
    else ({ st' with vectors := st'.vectors ++ vs }, Except.ok ())

/-- `mongo_store.update_data(id, data)`: replace the row with that id. -/
def updateRow (d : Data) : List Data → List Data
  | [] => []
  | r :: rs => if r.id = d.id then d :: rs else r :: updateRow d rs

/-- The updated row `_update_batch_status` writes for one `Data`. -/
def updData (vs : List EmbeddingVector) (d : Data) : Data :=
  { d with
    vector_ids := (vs.filter (fun v => v.data_id = d.id)).map EmbeddingVector.id
    processed := true
    vector_count := ((vs.filter (fun v => v.data_id = d.id)).map
      EmbeddingVector.id).length }

/-- `_update_batch_status`. -/
def updateBatchStatus (batch : List Data) (vs : List EmbeddingVector)
    (st : ImportSt) : ImportSt :=
  batch.foldl (fun st d => { st with rows := updateRow (updData vs d) st.rows }) st

/-- The batch loop of `_batch_vectorize_data` (`self.batch_size = 10`):
generate, store, update; a failed store aborts immediately. -/
def vectorizeBatches (env : ImportEnv) :
    List Data → Nat → ImportSt → ImportSt × Except String Nat
  | [], total, st => (st, Except.ok total)
  | d :: ds, total, st =>
    let batch := (d :: ds).take 10
    let rest := (d :: ds).drop 10
    let p := generateBatchVectors env.embed batch st
    match storeBatchVectors env p.1 p.2 with
    | (st2, Except.error e) => (st2, Except.error ("批量向量化失败: " ++ e))
    | (st2, Except.ok _) =>
      vectorizeBatches env rest (total + p.1.length) (updateBatchStatus batch p.1 st2)
termination_by ds _ _ => ds.length
decreasing_by
  simp only [List.length_drop, List.length_cons]
  omega

/-- `_batch_vectorize_data`. -/
def batchVectorizeData (env : ImportEnv) (data_list : List Data)
    (st : ImportSt) : ImportSt × Except String Nat :=
  vectorizeBatches env data_list 0 st

/-- `_import_single_file`: create a (always fresh) collection, resume any
pending rows of it, read and chunk the file, persist the chunks, then
vectorize them; any failure makes the per-file result unsuccessful. -/
def importSingleFile (env : ImportEnv) (file_name : String) (st : ImportSt) :
    ImportSt × FileResult :=
  let collection_id := st.nextId
  let st0 : ImportSt := { st with nextId := st.nextId + 1 }
  let pending := st0.rows.filter
    (fun d => d.collection_id = collection_id ∧ d.processed = false)
  match (if pending = [] then (st0, Except.ok 0)
      else batchVectorizeData env pending st0) with
  | (st1, Except.error _) =>
    (st1, { success := false, data_created := 0, vectors_created := 0 })
  | (st1, Except.ok _) =>
    match env.readFile file_name with
    | none => (st1, { success := false, data_created := 0, vectors_created := 0 })
    | some content =>
      let chunks := env.splitDoc content
      let p := batchStoreChunks collection_id chunks 0 st1
      match batchVectorizeData env p.1 p.2 with
      | (st3, Except.error _) =>
        (st3, { success := false, data_created := p.1.length,
                vectors_created := 0 })
      | (st3, Except.ok n) =>
        (st3, { success := true, data_created := p.1.length,
                vectors_created := n })

/-- The per-file loop of `import_directory`: failures are logged and
skipped, successes accumulate the statistics. -/
def importFiles (env : ImportEnv) : List String → ImportSt →
    ImportSt × Nat × Nat × Nat
  | [], st => (st, 0, 0, 0)
  | f :: fs, st =>
    let p := importSingleFile env f st
    let rest := importFiles env fs p.1
    if p.2.success then
      (rest.1, rest.2.1 + 1, rest.2.2.1 + p.2.data_created,
        rest.2.2.2 + p.2.vectors_created)
    else rest

/-- `import_directory`: get-or-create the dataset, fail early when the
directory holds no txt files, otherwise process every file and return
`success = True` unconditionally (per-file failures only skip the file). -/
def importDirectory (env : ImportEnv) (txt_files : List String)
    (st : ImportSt) : ImportSt × ImportResult :=
  let st0 : ImportSt := { st with nextId := st.nextId + 1 }
  if txt_files = [] then
    (st0, { success := false, files_processed := 0, data_created := 0,
            vectors_created := 0 })
  else
    let r := importFiles env txt_files st0
    (r.1, { success := true, files_processed := r.2.1,
            data_created := r.2.2.1, vectors_created := r.2.2.2 })

/-- A fault environment: each file reads as "x" and chunks to one chunk,
but every Milvus insert call fails. -/
def envC8Fail : ImportEnv :=
  { readFile := fun _ => some "x"
    splitDoc := fun c => [c]
    embed := fun _ => [1]
    insertFails := fun _ => true }

def initialImportSt : ImportSt :=
  { rows := [], vectors := [], nextId := 0, insertCalls := 0 }

/-- C8 (counterexample): `import_directory` sets `success = True` after the
file loop even when a file failed (rrf of data_import_service.py line 98);
with the vector insert failing, the run reports success while the produced
Data row is left `processed = false` with empty `vector_ids`. -/
theorem c8_import_directory_counterexample :
    (importDirectory envC8Fail ["a.txt"] initialImportSt).2.success = true ∧
    ((importDirectory envC8Fail ["a.txt"] initialImportSt).1.rows.map
        (fun d => (d.processed, d.vector_ids))) = [(false, [])] ∧
    ¬ (∀ d ∈ (importDirectory envC8Fail ["a.txt"] initialImportSt).1.rows,
        d.processed = true ∧ d.vector_ids ≠ []) := by
  have hlen : "x".length = 1 := rfl
  simp [importDirectory, importFiles, importSingleFile, batchVectorizeData,
    vectorizeBatches, generateBatchVectors, storeBatchVectors,
    batchStoreChunks, updateBatchStatus, envC8Fail, initialImportSt, hlen]

/-- Store well-formedness: row ids are unique, and ids and collection ids
are below the counter (time-based ids are fresh). -/
def WF (st : ImportSt) : Prop :=
  (st.rows.map Data.id).Nodup ∧
  ∀ d ∈ st.rows, d.id < st.nextId ∧ d.collection_id < st.nextId

/-- The claimed per-row invariant: a processed row has at least one vector
id, each referring to a stored vector that points back at the row. -/
def GoodRow (vectors : List EmbeddingVector) (d : Data) : Prop :=
  d.processed = true →
    d.vector_ids ≠ [] ∧
    ∀ vid ∈ d.vector_ids, ∃ v ∈ vectors, v.id = vid ∧ v.data_id = d.id

def Good (st : ImportSt) : Prop := ∀ d ∈ st.rows, GoodRow st.vectors d

theorem goodRow_mono {vs vs' : List EmbeddingVector} {d : Data}
    (h : GoodRow vs d) (hsub : ∀ v ∈ vs, v ∈ vs') : GoodRow vs' d := by
  intro hp
  rcases h hp with ⟨h1, h2⟩
  refine ⟨h1, ?_⟩
  intro vid hvid
  rcases h2 vid hvid with ⟨v, hv, he⟩
  exact ⟨v, hsub v hv, he⟩

theorem mem_updateRow {x d : Data} :
    ∀ {rows : List Data}, x ∈ updateRow d rows → x = d ∨ x ∈ rows
  | [], h => by simp [updateRow] at h
  | r :: rs, h => by
    simp only [updateRow] at h
    by_cases hr : r.id = d.id
    · rw [if_pos hr] at h
      rcases List.mem_cons.mp h with h' | h'
      · exact Or.inl h'
      · exact Or.inr (List.mem_cons_of_mem r h')
    · rw [if_neg hr] at h
      rcases List.mem_cons.mp h with h' | h'
      · exact Or.inr (h' ▸ List.mem_cons_self r rs)
      · rcases mem_updateRow h' with h'' | h''
        · exact Or.inl h''
        · exact Or.inr (List.mem_cons_of_mem r h'')

theorem mem_updateRow_of_ne {x d : Data} (hne : ¬ x.id = d.id) :
    ∀ {rows : List Data}, x ∈ rows → x ∈ updateRow d rows
  | [], h => by simp at h
  | r :: rs, h => by
    simp only [updateRow]
    rcases List.mem_cons.mp h with h' | h'
    · subst h'
      rw [if_neg hne]
      exact List.mem_cons_self x _
    · by_cases hr : r.id = d.id
      · rw [if_pos hr]
        exact List.mem_cons_of_mem d h'
      · rw [if_neg hr]
        exact List.mem_cons_of_mem r (mem_updateRow_of_ne hne h')

theorem updateRow_keys (d : Data) :
    ∀ (rows : List Data), (updateRow d rows).map Data.id = rows.map Data.id
  | [] => rfl
  | r :: rs => by
    simp only [updateRow]
    by_cases hr : r.id = d.id
    · rw [if_pos hr]
      simp [hr]
    · rw [if_neg hr]
      simp [updateRow_keys d rs]

theorem self_mem_updateRow (d : Data) :
    ∀ {rows : List Data}, d.id ∈ rows.map Data.id → d ∈ updateRow d rows
  | [], h => by simp at h
  | r :: rs, h => by
    simp only [updateRow]
    by_cases hr : r.id = d.id
    · rw [if_pos hr]
      exact List.mem_cons_self d rs
    · rw [if_neg hr]
      rw [List.map_cons] at h
      rcases List.mem_cons.mp h with h' | h'
      · exact absurd h'.symm hr
      · exact List.mem_cons_of_mem r (self_mem_updateRow d h')

theorem row_eq_of_id :
    ∀ {rows : List Data}, (rows.map Data.id).Nodup →
      ∀ {a b : Data}, a ∈ rows → b ∈ rows → a.id = b.id → a = b
  | [], _, _, _, ha, _, _ => by simp at ha
  | r :: rs, hnd, a, b, ha, hb, hid => by
    simp only [List.map_cons, List.nodup_cons] at hnd
    rcases List.mem_cons.mp ha with ha' | ha' <;>
      rcases List.mem_cons.mp hb with hb' | hb'
    · rw [ha', hb']
    · subst ha'
      exfalso
      apply hnd.1
      rw [hid]
      exact List.mem_map.mpr ⟨b, hb', rfl⟩
    · subst hb'
      exfalso
      apply hnd.1
      rw [← hid]
      exact List.mem_map.mpr ⟨a, ha', rfl⟩
    · exact row_eq_of_id hnd.2 ha' hb' hid

theorem updateBatchStatus_misc (vs : List EmbeddingVector) :
    ∀ (batch : List Data) (st : ImportSt),
      (updateBatchStatus batch vs st).vectors = st.vectors ∧
      (updateBatchStatus batch vs st).nextId = st.nextId ∧
      (updateBatchStatus batch vs st).insertCalls = st.insertCalls
  | [], st => ⟨rfl, rfl, rfl⟩
  | d :: bt, st => by
    simp only [updateBatchStatus, List.foldl_cons]
    exact updateBatchStatus_misc vs bt _

theorem updateBatchStatus_keys (vs : List EmbeddingVector) :
    ∀ (batch : List Data) (st : ImportSt),
      (updateBatchStatus batch vs st).rows.map Data.id = st.rows.map Data.id
  | [], st => rfl
  | d :: bt, st => by
    simp only [updateBatchStatus, List.foldl_cons]
    rw [show st.rows.map Data.id
        = (updateRow (updData vs d) st.rows).map Data.id
      from (updateRow_keys (updData vs d) st.rows).symm]
    exact updateBatchStatus_keys vs bt _

theorem updateBatchStatus_untouched (vs : List EmbeddingVector) :
    ∀ (batch : List Data) (st : ImportSt) (x : Data),
      x ∈ st.rows → x.id ∉ batch.map Data.id →
      x ∈ (updateBatchStatus batch vs st).rows
  | [], st, x, hx, _ => hx
  | d :: bt, st, x, hx, hnot => by
    simp only [List.map_cons, List.mem_cons] at hnot
    push_neg at hnot
    simp only [updateBatchStatus, List.foldl_cons]
    exact updateBatchStatus_untouched vs bt _ x
      (mem_updateRow_of_ne (by simpa using hnot.1) hx) hnot.2

theorem updateBatchStatus_subset (vs : List EmbeddingVector) :
    ∀ (batch : List Data) (st : ImportSt) (x : Data),
      x ∈ (updateBatchStatus batch vs st).rows →
      (∃ d ∈ batch, x = updData vs d) ∨ x ∈ st.rows
  | [], st, x, hx => Or.inr hx
  | d :: bt, st, x, hx => by
    simp only [updateBatchStatus, List.foldl_cons] at hx
    rcases updateBatchStatus_subset vs bt _ x hx with h | h
    · rcases h with ⟨d', hd', he⟩
      exact Or.inl ⟨d', List.mem_cons_of_mem d hd', he⟩
    · rcases mem_updateRow h with h' | h'
      · exact Or.inl ⟨d, List.mem_cons_self d bt, h'⟩
      · exact Or.inr h'

theorem updateBatchStatus_present (vs : List EmbeddingVector) :
    ∀ (batch : List Data) (st : ImportSt),
      (batch.map Data.id).Nodup →
      (∀ d ∈ batch, d.id ∈ st.rows.map Data.id) →
      ∀ d ∈ batch, updData vs d ∈ (updateBatchStatus batch vs st).rows
  | [], st, _, _, d, hd => by simp at hd
  | d0 :: bt, st, hnd, hpres, d, hd => by
    simp only [List.map_cons, List.nodup_cons] at hnd
    simp only [updateBatchStatus, List.foldl_cons]
    rcases List.mem_cons.mp hd with hd' | hd'
    · subst hd'
      apply updateBatchStatus_untouched vs bt
      · exact self_mem_updateRow _ (by
          simpa using hpres d (List.mem_cons_self d bt))
      · simpa using hnd.1
    · apply updateBatchStatus_present vs bt _ hnd.2 ?_ d hd'
      intro d' hd''
      rw [updateRow_keys]
      exact hpres d' (List.mem_cons_of_mem d0 hd'')

theorem generateBatchVectors_st (e : String → List ℚ) :
    ∀ (ds : List Data) (st : ImportSt),
      (generateBatchVectors e ds st).2.rows = st.rows ∧
      (generateBatchVectors e ds st).2.vectors = st.vectors ∧
      (generateBatchVectors e ds st).2.insertCalls = st.insertCalls ∧
      st.nextId ≤ (generateBatchVectors e ds st).2.nextId
  | [], st => ⟨rfl, rfl, rfl, le_refl _⟩
  | d :: ds, st => by
    simp only [generateBatchVectors]
    by_cases h : 512 < d.content.length
    · rw [if_pos h]
      have ih := generateBatchVectors_st e ds
        { st with nextId := st.nextId + 1 + 1 }
      exact ⟨ih.1, ih.2.1, ih.2.2.1,
        le_trans (show st.nextId ≤ st.nextId + 1 + 1 by omega) ih.2.2.2⟩
    · rw [if_neg h]
      have ih := generateBatchVectors_st e ds { st with nextId := st.nextId + 1 }
      exact ⟨ih.1, ih.2.1, ih.2.2.1,
        le_trans (show st.nextId ≤ st.nextId + 1 by omega) ih.2.2.2⟩

theorem generateBatchVectors_main (e : String → List ℚ) :
    ∀ (ds : List Data) (st : ImportSt),
      ∀ d ∈ ds, ∃ v ∈ (generateBatchVectors e ds st).1, v.data_id = d.id
  | [], st, d, hd => by simp at hd
  | d0 :: ds, st, d, hd => by
    simp only [generateBatchVectors]
    rcases List.mem_cons.mp hd with hd' | hd'
    · subst hd'
      by_cases h : 512 < d.content.length
      · rw [if_pos h]
        exact ⟨_, List.mem_cons_self _ _, rfl⟩
      · rw [if_neg h]
        exact ⟨_, List.mem_cons_self _ _, rfl⟩
    · by_cases h : 512 < d0.content.length
      · rw [if_pos h]
        rcases generateBatchVectors_main e ds
          { st with nextId := st.nextId + 1 + 1 } d hd' with ⟨v, hv, he⟩
        exact ⟨v, List.mem_cons_of_mem _ (List.mem_cons_of_mem _ hv), he⟩
      · rw [if_neg h]
        rcases generateBatchVectors_main e ds
          { st with nextId := st.nextId + 1 } d hd' with ⟨v, hv, he⟩
        exact ⟨v, List.mem_cons_of_mem _ hv, he⟩

theorem storeBatchVectors_ok {env : ImportEnv} {vs : List EmbeddingVector}
    {st st' : ImportSt} {u : Unit}
    (h : storeBatchVectors env vs st = (st', Except.ok u)) :
    st'.rows = st.rows ∧ st'.nextId = st.nextId ∧
    (∀ v ∈ st.vectors, v ∈ st'.vectors) ∧ (∀ v ∈ vs, v ∈ st'.vectors) := by
  unfold storeBatchVectors at h
  by_cases he : vs = []
  · rw [if_pos he] at h
    rcases Prod.mk.injEq .. ▸ h with ⟨h1, _⟩
    subst h1
    exact ⟨rfl, rfl, fun v hv => hv, by simp [he]⟩
  · rw [if_neg he] at h
    by_cases hf : env.insertFails st.insertCalls
    · rw [if_pos hf] at h
      exact absurd (congrArg Prod.snd h) (by simp)
    · rw [if_neg hf] at h
      rcases Prod.mk.injEq .. ▸ h with ⟨h1, _⟩
      subst h1
      refine ⟨rfl, rfl, ?_, ?_⟩
      · intro v hv
        simp [List.mem_append, hv]
      · intro v hv
        simp [List.mem_append, hv]

theorem storeBatchVectors_any (env : ImportEnv) (vs : List EmbeddingVector)
    (st : ImportSt) :
    (storeBatchVectors env vs st).1.rows = st.rows ∧
    (storeBatchVectors env vs st).1.nextId = st.nextId ∧
    (∀ v ∈ st.vectors, v ∈ (storeBatchVectors env vs st).1.vectors) := by
  unfold storeBatchVectors
  by_cases he : vs = []
  · rw [if_pos he]
    exact ⟨rfl, rfl, fun v hv => hv⟩
  · rw [if_neg he]
    by_cases hf : env.insertFails st.insertCalls
    · rw [if_pos hf]
      exact ⟨rfl, rfl, fun v hv => hv⟩
    · rw [if_neg hf]
      exact ⟨rfl, rfl, fun v hv => by simp [List.mem_append, hv]⟩

/-- Batch-loop invariant of `_batch_vectorize_data`: row ids are preserved;
the counter grows; vectors are only added; rows outside the processed list
are untouched; every row is either an original or a fully updated one whose
vector references resolve; and on success every listed `Data` ends up with
a processed row. -/
theorem vectorizeBatches_spec (env : ImportEnv) :
    ∀ (dl : List Data) (total : Nat) (st : ImportSt),
      (st.rows.map Data.id).Nodup →
      (dl.map Data.id).Nodup →
      (∀ d ∈ dl, d.id ∈ st.rows.map Data.id) →
      ((vectorizeBatches env dl total st).1.rows.map Data.id
          = st.rows.map Data.id) ∧
      st.nextId ≤ (vectorizeBatches env dl total st).1.nextId ∧
      (∀ v ∈ st.vectors, v ∈ (vectorizeBatches env dl total st).1.vectors) ∧
      (∀ x ∈ st.rows, x.id ∉ dl.map Data.id →
        x ∈ (vectorizeBatches env dl total st).1.rows) ∧
      (∀ x ∈ (vectorizeBatches env dl total st).1.rows,
        x ∈ st.rows ∨
        ((∃ d ∈ dl, x.id = d.id ∧ x.collection_id = d.collection_id) ∧
          x.processed = true ∧ x.vector_ids ≠ [] ∧
          ∀ vid ∈ x.vector_ids,
            ∃ v ∈ (vectorizeBatches env dl total st).1.vectors,
              v.id = vid ∧ v.data_id = x.id)) ∧
      (∀ u, (vectorizeBatches env dl total st).2 = Except.ok u →
        ∀ d ∈ dl, ∃ row ∈ (vectorizeBatches env dl total st).1.rows,
          row.id = d.id ∧ row.processed = true)
  | [], total, st => by
    intro hndr _ _
    have h0 : vectorizeBatches env [] total st = (st, Except.ok total) := by
      simp only [vectorizeBatches]
    rw [h0]
    refine ⟨rfl, le_refl _, fun v hv => hv, fun x hx _ => hx,
      fun x hx => Or.inl hx, ?_⟩
    intro u _ d hd
    exact absurd hd (List.not_mem_nil d)
  | d0 :: ds, total, st => by
    intro hndr hnddl hpres
    have hsplit : (d0 :: ds).take 10 ++ (d0 :: ds).drop 10 = d0 :: ds :=
      List.take_append_drop 10 (d0 :: ds)
    have hmap : (d0 :: ds).map Data.id
        = ((d0 :: ds).take 10).map Data.id ++ ((d0 :: ds).drop 10).map Data.id := by
      rw [← List.map_append, hsplit]
    have hnd2 := hmap ▸ hnddl
    rcases List.nodup_append.mp hnd2 with ⟨hndb, hndrest, hdisj⟩
    have hpresb : ∀ d ∈ (d0 :: ds).take 10, d.id ∈ st.rows.map Data.id := by
      intro d hd
      exact hpres d (by rw [← hsplit]; exact List.mem_append_left _ hd)
    have hpresr : ∀ d ∈ (d0 :: ds).drop 10, d ∈ (d0 :: ds) := by
      intro d hd
      rw [← hsplit]
      exact List.mem_append_right _ hd
    have hgen := generateBatchVectors_st env.embed ((d0 :: ds).take 10) st
    rcases hst : storeBatchVectors env
        (generateBatchVectors env.embed ((d0 :: ds).take 10) st).1
        (generateBatchVectors env.embed ((d0 :: ds).take 10) st).2
      with ⟨st2, exc⟩
    have heq : vectorizeBatches env (d0 :: ds) total st
        = match storeBatchVectors env
            (generateBatchVectors env.embed ((d0 :: ds).take 10) st).1
            (generateBatchVectors env.embed ((d0 :: ds).take 10) st).2 with
          | (st2, Except.error e) => (st2, Except.error ("批量向量化失败: " ++ e))
          | (st2, Except.ok _) =>
            vectorizeBatches env ((d0 :: ds).drop 10)
              (total + (generateBatchVectors env.embed ((d0 :: ds).take 10) st).1.length)
              (updateBatchStatus ((d0 :: ds).take 10)
                (generateBatchVectors env.embed ((d0 :: ds).take 10) st).1 st2) := by
      conv_lhs => rw [vectorizeBatches]
    cases exc with
    | error msg =>
      rw [hst] at heq
      have hany := storeBatchVectors_any env
        (generateBatchVectors env.embed ((d0 :: ds).take 10) st).1
        (generateBatchVectors env.embed ((d0 :: ds).take 10) st).2
      rw [hst] at hany
      have hrows2 : st2.rows = st.rows := hany.1.trans hgen.1
      have hvec2 : ∀ v ∈ st.vectors, v ∈ st2.vectors := by
        intro v hv
        exact hany.2.2 v (by rw [hgen.2.1]; exact hv)
      have hnext2 : st.nextId ≤ st2.nextId := by
        have h1 : st2.nextId
            = (generateBatchVectors env.embed ((d0 :: ds).take 10) st).2.nextId :=
          hany.2.1
        rw [h1]
        exact hgen.2.2.2
      rw [heq]
      refine ⟨by rw [hrows2], hnext2, hvec2, ?_, ?_, ?_⟩
      · intro x hx _
        rw [hrows2]
        exact hx
      · intro x hx
        rw [hrows2] at hx
        exact Or.inl hx
      · intro u hu
        simp at hu
    | ok u0 =>
      rw [hst] at heq
      have hok := storeBatchVectors_ok hst
      have hrows2 : st2.rows = st.rows := by rw [hok.1, hgen.1]
      have hvec2 : ∀ v ∈ st.vectors, v ∈ st2.vectors := by
        intro v hv
        exact hok.2.2.1 v (by rw [hgen.2.1]; exact hv)
      have hvecb : ∀ v ∈ (generateBatchVectors env.embed ((d0 :: ds).take 10) st).1,
          v ∈ st2.vectors := hok.2.2.2
      have hnext2 : st.nextId ≤ st2.nextId := by
        rw [hok.2.1]
        exact hgen.2.2.2
      have hub := updateBatchStatus_misc
        (generateBatchVectors env.embed ((d0 :: ds).take 10) st).1
        ((d0 :: ds).take 10) st2
      have hubkeys := updateBatchStatus_keys
        (generateBatchVectors env.embed ((d0 :: ds).take 10) st).1
        ((d0 :: ds).take 10) st2
      have hkeys3 : (updateBatchStatus ((d0 :: ds).take 10)
          (generateBatchVectors env.embed ((d0 :: ds).take 10) st).1 st2).rows.map
            Data.id = st.rows.map Data.id := by
        rw [hubkeys, hrows2]
      have hrec := vectorizeBatches_spec env ((d0 :: ds).drop 10)
        (total + (generateBatchVectors env.embed ((d0 :: ds).take 10) st).1.length)
        (updateBatchStatus ((d0 :: ds).take 10)
          (generateBatchVectors env.embed ((d0 :: ds).take 10) st).1 st2)
        (by rw [hkeys3]; exact hndr) hndrest
        (by
          intro d hd
          rw [hkeys3]
          exact hpres d (hpresr d hd))
      rw [heq]
      have hvec3 : ∀ v ∈ st.vectors,
          v ∈ (updateBatchStatus ((d0 :: ds).take 10)
            (generateBatchVectors env.embed ((d0 :: ds).take 10) st).1 st2).vectors := by
        intro v hv
        rw [hub.1]
        exact hvec2 v hv
      have hvecb3 : ∀ v ∈ (generateBatchVectors env.embed ((d0 :: ds).take 10) st).1,
          v ∈ (updateBatchStatus ((d0 :: ds).take 10)
            (generateBatchVectors env.embed ((d0 :: ds).take 10) st).1 st2).vectors := by
        intro v hv
        rw [hub.1]
        exact hvecb v hv
      refine ⟨?_, ?_, ?_, ?_, ?_, ?_⟩
      · rw [hrec.1, hkeys3]
      · exact le_trans hnext2 (le_trans (le_of_eq hub.2.1.symm) hrec.2.1)
      · intro v hv
        exact hrec.2.2.1 v (hvec3 v hv)
      · intro x hx hnot
        have hnotb : x.id ∉ ((d0 :: ds).take 10).map Data.id := by
          intro hc
          exact hnot (by rw [hmap]; exact List.mem_append_left _ hc)
        have hnotr : x.id ∉ ((d0 :: ds).drop 10).map Data.id := by
          intro hc
          exact hnot (by rw [hmap]; exact List.mem_append_right _ hc)
        apply hrec.2.2.2.1 x ?_ hnotr
        apply updateBatchStatus_untouched _ _ _ x ?_ hnotb
        rw [hrows2]
        exact hx
      · intro x hx
        rcases hrec.2.2.2.2.1 x hx with h | h
        · rcases updateBatchStatus_subset _ _ _ x h with h' | h'
          · rcases h' with ⟨d, hd, he⟩
            right
            have hidx : x.id = d.id := by rw [he]; rfl
            have hcollx : x.collection_id = d.collection_id := by rw [he]; rfl
            refine ⟨⟨d, by rw [← hsplit]; exact List.mem_append_left _ hd,
              hidx, hcollx⟩, by rw [he]; rfl, ?_, ?_⟩
            · rw [he]
              rcases generateBatchVectors_main env.embed ((d0 :: ds).take 10) st
                d hd with ⟨v, hv, hvd⟩
              simp only [updData, ne_eq, List.map_eq_nil_iff]
              intro hc
              rw [List.filter_eq_nil_iff] at hc
              exact hc v hv (by simp [hvd])
            · intro vid hvid
              rw [he] at hvid
              simp only [updData, List.mem_map] at hvid
              rcases hvid with ⟨v, hv, hvid⟩
              rcases List.mem_filter.mp hv with ⟨hv1, hv2⟩
              refine ⟨v, hrec.2.2.1 v (hvecb3 v hv1), hvid, ?_⟩
              rw [hidx]
              exact of_decide_eq_true hv2
          · rw [hrows2] at h'
            exact Or.inl h'
        · rcases h with ⟨⟨d, hd, he⟩, h2, h3, h4⟩
          right
          exact ⟨⟨d, hpresr d hd, he⟩, h2, h3, h4⟩
      · intro u hu d hd
        have hd' : d ∈ (d0 :: ds).take 10 ++ (d0 :: ds).drop 10 := by
          rw [hsplit]
          exact hd
        rcases List.mem_append.mp hd' with hdb | hdr
        · have hupd := updateBatchStatus_present
            (generateBatchVectors env.embed ((d0 :: ds).take 10) st).1
            ((d0 :: ds).take 10) st2 hndb
            (by
              intro d' hd''
              rw [hrows2]
              exact hpresb d' hd'') d hdb
          have hkeep := hrec.2.2.2.1 _ hupd (by
            intro hc
            exact hdisj (by
              simp only [updData] at hc
              exact List.mem_map.mpr ⟨d, hdb, rfl⟩) hc)
          exact ⟨updData _ d, hkeep, rfl, rfl⟩
        · exact hrec.2.2.2.2.2 u hu d hdr
termination_by dl _ _ => dl.length
decreasing_by
  simp only [List.length_drop, List.length_cons]
  omega

/-- `_batch_store_chunks` appends the created rows to the store, leaves
vectors and call counter alone, and every created row is a fresh,
unprocessed one of the given collection. -/
theorem batchStoreChunks_spec (c : Nat) :
    ∀ (chunks : List String) (i : Nat) (st : ImportSt),
      (batchStoreChunks c chunks i st).2.rows
          = st.rows ++ (batchStoreChunks c chunks i st).1 ∧
      (batchStoreChunks c chunks i st).2.vectors = st.vectors ∧
      (batchStoreChunks c chunks i st).2.insertCalls = st.insertCalls ∧
      st.nextId ≤ (batchStoreChunks c chunks i st).2.nextId ∧
      ((batchStoreChunks c chunks i st).1.map Data.id).Nodup ∧
      ∀ d ∈ (batchStoreChunks c chunks i st).1,
        st.nextId ≤ d.id ∧ d.id < (batchStoreChunks c chunks i st).2.nextId ∧
        d.collection_id = c ∧ d.processed = false ∧ d.vector_ids = []
  | [], i, st => by
    simp [batchStoreChunks]
  | chunk :: rest, i, st => by
    simp only [batchStoreChunks]
    have ih := batchStoreChunks_spec c rest (i + 1)
      { st with
        rows := st.rows ++
          [{ id := st.nextId
             collection_id := c
             content := chunk
             vector_ids := []
             processed := false
             chunk_index := i }]
        nextId := st.nextId + 1 }
    refine ⟨?_, ih.2.1, ih.2.2.1, ?_, ?_, ?_⟩
    · rw [ih.1]
      simp
    · exact le_trans (Nat.le_succ _) ih.2.2.2.1
    · refine List.nodup_cons.mpr ⟨?_, ih.2.2.2.2.1⟩
      intro hc
      rcases List.mem_map.mp hc with ⟨d, hd, hde⟩
      have h1 := (ih.2.2.2.2.2 d hd).1
      simp at h1 hde
      omega
    · intro d hd
      rcases List.mem_cons.mp hd with hd' | hd'
      · subst hd'
        refine ⟨le_refl _, ?_, rfl, rfl, rfl⟩
        exact lt_of_lt_of_le (Nat.lt_succ_self _) ih.2.2.2.1
      · have h := ih.2.2.2.2.2 d hd'
        exact ⟨le_trans (Nat.le_succ _) h.1, h.2.1, h.2.2⟩

/-- `_import_single_file` preserves the store invariants: well-formed ids,
good rows, monotone counter and vector store, old rows kept; produced rows
have fresh ids; and on a successful file every fresh row is processed. -/
theorem importSingleFile_spec (env : ImportEnv) (f : String) (st : ImportSt)
    (hwf : WF st) (hgood : Good st) :
    WF (importSingleFile env f st).1 ∧
    Good (importSingleFile env f st).1 ∧
    st.nextId ≤ (importSingleFile env f st).1.nextId ∧
    (∀ v ∈ st.vectors, v ∈ (importSingleFile env f st).1.vectors) ∧
    (∀ x ∈ st.rows, x ∈ (importSingleFile env f st).1.rows) ∧
    (∀ x ∈ (importSingleFile env f st).1.rows,
      x ∈ st.rows ∨ st.nextId < x.id) ∧
    ((importSingleFile env f st).2.success = true →
      ∀ x ∈ (importSingleFile env f st).1.rows,
        st.nextId ≤ x.id → x.processed = true) := by
  have hpend : List.filter
      (fun d => decide (d.collection_id = st.nextId ∧ d.processed = false))
      st.rows = [] := by
    rw [List.filter_eq_nil_iff]
    intro d hd
    simp only [decide_eq_true_eq, not_and]
    intro hc
    have h2 := (hwf.2 d hd).2
    omega
  rcases hread : env.readFile f with _ | content
  · have he : importSingleFile env f st
        = ({ st with nextId := st.nextId + 1 },
           { success := false, data_created := 0, vectors_created := 0 }) := by
      simp only [importSingleFile, hpend, if_true, hread]
    rw [he]
    refine ⟨⟨hwf.1, ?_⟩, hgood, Nat.le_succ _, fun v hv => hv,
      fun x hx => hx, fun x hx => Or.inl hx, ?_⟩
    · intro d hd
      have h := hwf.2 d hd
      exact ⟨Nat.lt_succ_of_lt h.1, Nat.lt_succ_of_lt h.2⟩
    · intro h
      simp at h
  · have hbs := batchStoreChunks_spec st.nextId (env.splitDoc content) 0
      { st with nextId := st.nextId + 1 }
    set P := batchStoreChunks st.nextId (env.splitDoc content) 0
      { st with nextId := st.nextId + 1 } with hP
    have b1 : P.2.rows = st.rows ++ P.1 := hbs.1
    have b2 : P.2.vectors = st.vectors := hbs.2.1
    have b4 : st.nextId + 1 ≤ P.2.nextId := hbs.2.2.2.1
    have b5 : (P.1.map Data.id).Nodup := hbs.2.2.2.2.1
    have b6 : ∀ d ∈ P.1, st.nextId + 1 ≤ d.id ∧ d.id < P.2.nextId ∧
        d.collection_id = st.nextId ∧ d.processed = false ∧ d.vector_ids = [] :=
      hbs.2.2.2.2.2
    have hnd1 : (P.2.rows.map Data.id).Nodup := by
      rw [b1, List.map_append, List.nodup_append]
      refine ⟨hwf.1, b5, ?_⟩
      intro a ha hb
      rcases List.mem_map.mp ha with ⟨x, hx, hxe⟩
      rcases List.mem_map.mp hb with ⟨y, hy, hye⟩
      have h1 := (hwf.2 x hx).1
      have h2 := (b6 y hy).1
      omega
    have hpres : ∀ d ∈ P.1, d.id ∈ P.2.rows.map Data.id := by
      intro d hd
      rw [b1, List.map_append]
      exact List.mem_append_right _ (List.mem_map.mpr ⟨d, hd, rfl⟩)
    have hvspec := vectorizeBatches_spec env P.1 0 P.2 hnd1 b5 hpres
    rcases hvb : vectorizeBatches env P.1 0 P.2 with ⟨st3, exc⟩
    rw [hvb] at hvspec
    have va : st3.rows.map Data.id = P.2.rows.map Data.id := hvspec.1
    have vb : P.2.nextId ≤ st3.nextId := hvspec.2.1
    have vc : ∀ v ∈ P.2.vectors, v ∈ st3.vectors := hvspec.2.2.1
    have ve : ∀ x ∈ P.2.rows, x.id ∉ P.1.map Data.id → x ∈ st3.rows :=
      hvspec.2.2.2.1
    have vf : ∀ x ∈ st3.rows,
        x ∈ P.2.rows ∨
        ((∃ d ∈ P.1, x.id = d.id ∧ x.collection_id = d.collection_id) ∧
          x.processed = true ∧ x.vector_ids ≠ [] ∧
          ∀ vid ∈ x.vector_ids,
            ∃ v ∈ st3.vectors, v.id = vid ∧ v.data_id = x.id) :=
      hvspec.2.2.2.2.1
    have hvecsub : ∀ v ∈ st.vectors, v ∈ st3.vectors := by
      intro v hv
      exact vc v (by rw [b2]; exact hv)
    have hwf3 : WF st3 := by
      refine ⟨by rw [va]; exact hnd1, ?_⟩
      intro x hx
      rcases vf x hx with h | h
      · rw [b1] at h
        rcases List.mem_append.mp h with h' | h'
        · have h1 := hwf.2 x h'
          omega
        · have h1 := b6 x h'
          have h2 := (b6 x h').2.2.1
          omega
      · rcases h.1 with ⟨d, hd, hid, hcoll⟩
        have h1 := b6 d hd
        rw [hid, hcoll]
        omega
    have hgood3 : Good st3 := by
      intro x hx
      rcases vf x hx with h | h
      · rw [b1] at h
        rcases List.mem_append.mp h with h' | h'
        · exact goodRow_mono (hgood x h') hvecsub
        · intro hp
          rw [(b6 x h').2.2.2.1] at hp
          exact Bool.noConfusion hp
      · intro _
        exact ⟨h.2.2.1, h.2.2.2⟩
    have hnext3 : st.nextId ≤ st3.nextId := by omega
    have hfwd : ∀ x ∈ st.rows, x ∈ st3.rows := by
      intro x hx
      refine ve x (by rw [b1]; exact List.mem_append_left _ hx) ?_
      intro hc
      rcases List.mem_map.mp hc with ⟨d, hd, hde⟩
      have h1 := (b6 d hd).1
      have h2 := (hwf.2 x hx).1
      omega
    have hback : ∀ x ∈ st3.rows, x ∈ st.rows ∨ st.nextId < x.id := by
      intro x hx
      rcases vf x hx with h | h
      · rw [b1] at h
        rcases List.mem_append.mp h with h' | h'
        · exact Or.inl h'
        · have h1 := (b6 x h').1
          exact Or.inr (by omega)
      · rcases h.1 with ⟨d, hd, hid, _⟩
        have h1 := (b6 d hd).1
        exact Or.inr (by omega)
    cases exc with
    | error msg =>
      have he : importSingleFile env f st
          = (st3, { success := false
                    data_created := P.1.length
                    vectors_created := 0 }) := by
        simp only [importSingleFile, hpend, if_true, hread, batchVectorizeData]
        rw [← hP, hvb]
      rw [he]
      refine ⟨hwf3, hgood3, hnext3, hvecsub, hfwd, hback, ?_⟩
      intro h
      simp at h
    | ok u0 =>
      have he : importSingleFile env f st
          = (st3, { success := true
                    data_created := P.1.length
                    vectors_created := u0 }) := by
        simp only [importSingleFile, hpend, if_true, hread, batchVectorizeData]
        rw [← hP, hvb]
      rw [he]
      refine ⟨hwf3, hgood3, hnext3, hvecsub, hfwd, hback, ?_⟩
      intro _ x hx hge
      rcases vf x hx with h | h
      · rw [b1] at h
        rcases List.mem_append.mp h with h' | h'
        · have h1 := (hwf.2 x h').1
          exact absurd hge (Nat.not_le.mpr h1)
        · rcases hvspec.2.2.2.2.2 u0 rfl x h' with ⟨row, hrow, hrid, hrp⟩
          have hnd3 : (st3.rows.map Data.id).Nodup := by
            rw [va]
            exact hnd1
          have hre : row = x := row_eq_of_id hnd3 hrow hx hrid
          exact hre ▸ hrp
      · exact h.2.1

/-- The per-file loop of `import_directory` preserves the invariants, counts
at most one success per file, and when every file counted as a success every
fresh row is processed. -/
theorem importFiles_spec (env : ImportEnv) :
    ∀ (files : List String) (st : ImportSt), WF st → Good st →
      WF (importFiles env files st).1 ∧
      Good (importFiles env files st).1 ∧
      st.nextId ≤ (importFiles env files st).1.nextId ∧
      (∀ v ∈ st.vectors, v ∈ (importFiles env files st).1.vectors) ∧
      (∀ x ∈ st.rows, x ∈ (importFiles env files st).1.rows) ∧
      (∀ x ∈ (importFiles env files st).1.rows,
        x ∈ st.rows ∨ st.nextId < x.id) ∧
      (importFiles env files st).2.1 ≤ files.length ∧
      ((importFiles env files st).2.1 = files.length →
        ∀ x ∈ (importFiles env files st).1.rows,
          st.nextId ≤ x.id → x.processed = true)
  | [], st, hwf, hgood => by
    have h0 : importFiles env [] st = (st, 0, 0, 0) := by
      simp only [importFiles]
    rw [h0]
    refine ⟨hwf, hgood, le_refl _, fun v hv => hv, fun x hx => hx,
      fun x hx => Or.inl hx, Nat.zero_le _, ?_⟩
    intro _ x hx hge
    exact absurd hge (Nat.not_le.mpr (hwf.2 x hx).1)
  | f :: fs, st, hwf, hgood => by
    have hp := importSingleFile_spec env f st hwf hgood
    rcases hpf : importSingleFile env f st with ⟨st1, fr⟩
    rw [hpf] at hp
    dsimp only at hp
    have ih := importFiles_spec env fs st1 hp.1 hp.2.1
    rcases hrest : importFiles env fs st1 with ⟨st2, n1, n2, n3⟩
    rw [hrest] at ih
    dsimp only at ih
    have hshared :
        WF st2 ∧ Good st2 ∧ st.nextId ≤ st2.nextId ∧
        (∀ v ∈ st.vectors, v ∈ st2.vectors) ∧
        (∀ x ∈ st.rows, x ∈ st2.rows) ∧
        (∀ x ∈ st2.rows, x ∈ st.rows ∨ st.nextId < x.id) := by
      refine ⟨ih.1, ih.2.1, le_trans hp.2.2.1 ih.2.2.1, ?_, ?_, ?_⟩
      · intro v hv
        exact ih.2.2.2.1 v (hp.2.2.2.1 v hv)
      · intro x hx
        exact ih.2.2.2.2.1 x (hp.2.2.2.2.1 x hx)
      · intro x hx
        rcases ih.2.2.2.2.2.1 x hx with h | h
        · exact hp.2.2.2.2.2.1 x h
        · have h1 := hp.2.2.1
          exact Or.inr (by omega)
    cases hsucc : fr.success with
    | false =>
      have he : importFiles env (f :: fs) st = (st2, n1, n2, n3) := by
        simp [importFiles, hpf, hrest, hsucc]
      rw [he]
      refine ⟨hshared.1, hshared.2.1, hshared.2.2.1, hshared.2.2.2.1,
        hshared.2.2.2.2.1, hshared.2.2.2.2.2, ?_, ?_⟩
      · have h1 := ih.2.2.2.2.2.2.1
        simp only [List.length_cons]
        omega
      · intro hc
        exfalso
        have h1 := ih.2.2.2.2.2.2.1
        simp only [List.length_cons] at hc
        omega
    | true =>
      have he : importFiles env (f :: fs) st
          = (st2, n1 + 1, n2 + fr.data_created, n3 + fr.vectors_created) := by
        simp [importFiles, hpf, hrest, hsucc]
      rw [he]
      refine ⟨hshared.1, hshared.2.1, hshared.2.2.1, hshared.2.2.2.1,
        hshared.2.2.2.2.1, hshared.2.2.2.2.2, ?_, ?_⟩
      · have h1 := ih.2.2.2.2.2.2.1
        simp only [List.length_cons]
        omega
      · intro hc x hx hge
        have hn1 : n1 = fs.length := by
          simp only [List.length_cons] at hc
          omega
        rcases ih.2.2.2.2.2.1 x hx with h | h
        · exact hp.2.2.2.2.2.2 hsucc x h hge
        · exact ih.2.2.2.2.2.2.2 hn1 x hx (le_of_lt h)

/-- An environment in which every step succeeds: each file reads as "x",
chunks to one chunk, and no Milvus insert fails. -/
def envC8OK : ImportEnv :=
  { readFile := fun _ => some "x"
    splitDoc := fun c => [c]
    embed := fun _ => [1]
    insertFails := fun _ => false }

/-- C8 (amended): `import_directory` reports `success = True` whenever the
directory holds a txt file, even when a file import failed; the claimed
row invariant only holds for the produced rows once additionally every file
counted as processed (`files_processed` equals the number of files): then
every produced `Data` row is processed, carries at least one vector id, and
each of its vector ids refers to a stored vector pointing back at the row. -/
theorem c8_import_directory_amended (env : ImportEnv) (txt_files : List String)
    (st : ImportSt) (hwf : WF st) (hgood : Good st)
    (hsucc : (importDirectory env txt_files st).2.success = true)
    (hall : (importDirectory env txt_files st).2.files_processed
      = txt_files.length) :
    ∀ d ∈ (importDirectory env txt_files st).1.rows, st.nextId ≤ d.id →
      d.processed = true ∧ d.vector_ids ≠ [] ∧
      ∀ vid ∈ d.vector_ids,
        ∃ v ∈ (importDirectory env txt_files st).1.vectors,
          v.id = vid ∧ v.data_id = d.id := by
  have hwf0 : WF { st with nextId := st.nextId + 1 } := by
    refine ⟨hwf.1, ?_⟩
    intro d hd
    have h := hwf.2 d hd
    exact ⟨Nat.lt_succ_of_lt h.1, Nat.lt_succ_of_lt h.2⟩
  have hgood0 : Good { st with nextId := st.nextId + 1 } := hgood
  by_cases hnil : txt_files = []
  · subst hnil
    simp [importDirectory] at hsucc
  · have he : importDirectory env txt_files st
        = ((importFiles env txt_files { st with nextId := st.nextId + 1 }).1,
           { success := true
             files_processed := (importFiles env txt_files
               { st with nextId := st.nextId + 1 }).2.1
             data_created := (importFiles env txt_files
               { st with nextId := st.nextId + 1 }).2.2.1
             vectors_created := (importFiles env txt_files
               { st with nextId := st.nextId + 1 }).2.2.2 }) := by
      simp [importDirectory, hnil]
    rw [he] at hall ⊢
    dsimp only at hall
    have hif := importFiles_spec env txt_files
      { st with nextId := st.nextId + 1 } hwf0 hgood0
    intro d hd hge
    dsimp only at hd ⊢
    have hproc : d.processed = true := by
      rcases hif.2.2.2.2.2.1 d hd with h | h
      · have h1 := (hwf.2 d h).1
        exact absurd hge (Nat.not_le.mpr h1)
      · exact hif.2.2.2.2.2.2.2 hall d hd (le_of_lt h)
    have hgr := hif.2.1 d hd hproc
    exact ⟨hproc, hgr.1, hgr.2⟩

/-- Witness for the amended C8 theorem: one file, one chunk, no insert
fault; the hypotheses hold and the produced row invariant follows by
applying the theorem. -/
theorem c8_import_directory_amended_witness :
    WF initialImportSt ∧ Good initialImportSt ∧
    (importDirectory envC8OK ["a.txt"] initialImportSt).2.success = true ∧
    (importDirectory envC8OK ["a.txt"] initialImportSt).2.files_processed
      = ["a.txt"].length ∧
    ∀ d ∈ (importDirectory envC8OK ["a.txt"] initialImportSt).1.rows,
      initialImportSt.nextId ≤ d.id →
      d.processed = true ∧ d.vector_ids ≠ [] ∧
      ∀ vid ∈ d.vector_ids,
        ∃ v ∈ (importDirectory envC8OK ["a.txt"] initialImportSt).1.vectors,
          v.id = vid ∧ v.data_id = d.id := by
  have hwf : WF initialImportSt := by
    refine ⟨List.nodup_nil, ?_⟩
    intro d hd
    exact absurd hd (List.not_mem_nil d)
  have hgood : Good initialImportSt := by
    intro d hd
    exact absurd hd (List.not_mem_nil d)
  have hlen : ("x" : String).length = 1 := rfl
  have hsucc : (importDirectory envC8OK ["a.txt"] initialImportSt).2.success
      = true := by
    simp [importDirectory, importFiles, importSingleFile, batchVectorizeData,
      vectorizeBatches, generateBatchVectors, storeBatchVectors,
      batchStoreChunks, updateBatchStatus, updateRow, updData, envC8OK,
      initialImportSt, hlen]
  have hall : (importDirectory envC8OK ["a.txt"] initialImportSt).2.files_processed
      = ["a.txt"].length := by
    simp [importDirectory, importFiles, importSingleFile, batchVectorizeData,
      vectorizeBatches, generateBatchVectors, storeBatchVectors,
      batchStoreChunks, updateBatchStatus, updateRow, updData, envC8OK,
      initialImportSt, hlen]
  exact ⟨hwf, hgood, hsucc, hall,
    c8_import_directory_amended envC8OK ["a.txt"] initialImportSt
      hwf hgood hsucc hall⟩

end Echo
